import Mathlib

/-!
Verification development for the scene-graph core of PixiJS v8
(`src/scene/container/Container.ts`).

The TypeScript class `Container` is shallowly embedded as a record of the
fields the verified operations touch, and the scene graph as a `World`
mapping numeric ids to containers and to render groups.  Each public
operation of `Container` is translated line by line from the source; code
of the repository that is not part of the provided source (the `Matrix`
and `RenderGroup` classes and the children/sort mixins) is modelled from
the specification and marked `Modelled from the spec:` in its doc comment.

Numbers that are IEEE doubles in the source (transform entries, alpha) are
modelled as rationals: no claim below depends on floating-point rounding.
Event-emitter notifications are modelled as an explicit event log returned
by each operation.
-/

namespace Pixi

/-- Observable 2-vector (`ObservablePoint`): only its coordinates matter to
the verified operations; change notification is explicit in the model. -/
structure ObsPoint where
  x : ℚ
  y : ℚ
deriving DecidableEq

/-- Modelled from the spec: the 2D affine `Matrix` primitive (`maths/matrix/Matrix`,
not in the provided source).  `a b c d` is the linear part, `tx ty` the
translation, with points transformed as in the source convention
x1 = a*x + c*y + tx, y1 = b*x + d*y + ty. -/
structure Matrix where
  a : ℚ
  b : ℚ
  c : ℚ
  d : ℚ
  tx : ℚ
  ty : ℚ
deriving DecidableEq

/-- Modelled from the spec: `new Matrix()` is the identity matrix. -/
def Matrix.identity : Matrix := ⟨1, 0, 0, 1, 0, 0⟩

/-- Modelled from the spec: applying a matrix to a point
(x1 = a*x + c*y + tx, y1 = b*x + d*y + ty). -/
def Matrix.apply (m : Matrix) (p : ℚ × ℚ) : ℚ × ℚ :=
  (m.a * p.1 + m.c * p.2 + m.tx, m.b * p.1 + m.d * p.2 + m.ty)

/-- Modelled from the spec: `Matrix.appendFrom(a, b)` stores in `this` the
composition that applies `a` first and then `b`
(spec 4.1: "apply rgTransform first, then groupWorld"). -/
def Matrix.appendFrom (a b : Matrix) : Matrix :=
  { a := b.a * a.a + b.c * a.b
    b := b.b * a.a + b.d * a.b
    c := b.a * a.c + b.c * a.d
    d := b.b * a.c + b.d * a.d
    tx := b.a * a.tx + b.c * a.ty + b.tx
    ty := b.b * a.tx + b.d * a.ty + b.ty }

theorem Matrix.apply_appendFrom (a b : Matrix) (p : ℚ × ℚ) :
    (Matrix.appendFrom a b).apply p = b.apply (a.apply p) := by
  simp only [Matrix.apply, Matrix.appendFrom, Prod.mk.injEq]
  constructor <;> ring

/-- Which observable point of a container fired a change notification
(used by `onUpdate`, which compares the argument with `this._skew`). -/
inductive PointKind where
  | position
  | scale
  | pivot
  | skew
deriving DecidableEq

/-- Update-category bit flags (source lines 60–63). -/
def UPDATE_COLOR : Nat := 0b0001
def UPDATE_BLEND : Nat := 0b0010
def UPDATE_VISIBLE : Nat := 0b0100
def UPDATE_TRANSFORM : Nat := 0b1000

/-- The per-node state of `Container` (source lines 301–528), restricted to
the fields read or written by the operations verified below.  Fields of the
source class that no embedded operation touches (uid, color and blend
state, measurable, includeInBuild, updateTick) are omitted.  The four
cached rotation/skew basis scalars `_cx _sx _cy _sy` are cos/sin of the two
angles `rotation + skew.y` and `rotation - skew.x`; since no claim
evaluates trigonometry they are modelled by the pair of angles themselves
(`basisArgs`), which determines them. -/
structure Container where
  parent : Option Nat
  children : List Nat
  isRenderGroupRoot : Bool
  renderGroup : Option Nat
  didChange : Bool
  didViewUpdate : Bool
  updateFlags : Nat
  localVisibleRenderable : Nat
  localAlpha : ℚ
  rgAlpha : ℚ
  destroyed : Bool
  localTransform : Matrix
  rgTransform : Matrix
  worldTransformB : Option Matrix
  rotation : ℚ
  basisArgs : ℚ × ℚ
  position : Option ObsPoint
  scale : Option ObsPoint
  pivot : Option ObsPoint
  skew : Option ObsPoint
  zIndex : Int
  sortableChildren : Bool
  sortDirty : Bool
  mask : Option Nat
  filters : Option (List Nat)
  effects : Option (List Nat)
  isSimple : Bool
deriving DecidableEq

/-- Default field values of a freshly constructed `Container`
(source lines 313–504). -/
def Container.mkDefault : Container :=
  { parent := none
    children := []
    isRenderGroupRoot := false
    renderGroup := none
    didChange := false
    didViewUpdate := false
    updateFlags := 0b1111
    localVisibleRenderable := 0b11
    localAlpha := 1
    rgAlpha := 1
    destroyed := false
    localTransform := Matrix.identity
    rgTransform := Matrix.identity
    worldTransformB := none
    rotation := 0
    basisArgs := (0, 0)
    position := some ⟨0, 0⟩
    scale := some ⟨1, 1⟩
    pivot := some ⟨0, 0⟩
    skew := some ⟨0, 0⟩
    zIndex := 0
    sortableChildren := false
    sortDirty := false
    mask := none
    filters := none
    effects := some []
    isSimple := true }

/-- Modelled from the spec: the `RenderGroup` class (`scene/container/RenderGroup`,
not in the provided source).  It owns a root node, a world transform, the
list of directly nested child render groups, a structural-change flag, and
a proxy renderable (spec 3, "Render Group"). -/
structure RenderGroup where
  root : Nat
  renderGroupParent : Option Nat
  renderGroupChildren : List Nat
  structureDidChange : Bool
  worldTransform : Matrix
  proxyRenderable : Option Nat
deriving DecidableEq

/-- Modelled from the spec: `new RenderGroup(root)` — "Create a new render
group rooted at this node" (spec 4.4).  A fresh group has no parent and no
nested children, and must have its draw instructions built. -/
def RenderGroup.mkNew (root : Nat) : RenderGroup :=
  { root := root
    renderGroupParent := none
    renderGroupChildren := []
    structureDidChange := true
    worldTransform := Matrix.identity
    proxyRenderable := none }

/-- The scene-graph heap: containers and render groups addressed by id.
`nextGroupId` supplies the fresh id used when `enableRenderGroup`
allocates a group (`new RenderGroup(this)` in the source). -/
structure World where
  containers : Nat → Container
  groups : Nat → RenderGroup
  nextGroupId : Nat

/-- Update one container in place. -/
def updC (w : World) (i : Nat) (f : Container → Container) : World :=
  { w with containers := fun j => if j = i then f (w.containers j) else w.containers j }

/-- Update one render group in place. -/
def updG (w : World) (i : Nat) (f : RenderGroup → RenderGroup) : World :=
  { w with groups := fun j => if j = i then f (w.groups j) else w.groups j }

/-- Synchronous notifications emitted by the operations: the event-emitter
events of `Container` plus the two upward render-group notifications and
the sort hook, modelled as log entries. -/
inductive Event where
  | childAdded (child parent : Nat) (index : Int)
  | added (child parent : Nat)
  | childRemoved (child parent : Nat) (index : Int)
  | removed (child parent : Nat)
  | destroyedEv (node : Nat)
  | onChildUpdate (group node : Nat)
  | onChildViewUpdate (group node : Nat)
  | depthModified (child : Nat)
deriving DecidableEq

/-- JavaScript `Array.prototype.indexOf`: first index of `x` in `l`,
or `-1` when absent. -/
def jsIndexOf : List Nat → Nat → Int
  | [], _ => -1
  | x :: xs, c =>
    if x = c then 0
    else
      let r := jsIndexOf xs c
      if r = -1 then -1 else r + 1

/-- JavaScript `Array.prototype.splice(start, 1)`: a negative start counts
from the end (clamped at 0), a start at or past the length removes
nothing. -/
def jsSplice1 (l : List Nat) (start : Int) : List Nat :=
  l.eraseIdx (if start < 0 then (l.length + start).toNat else start.toNat)

theorem jsIndexOf_eq_neg_one {l : List Nat} {c : Nat} (h : c ∉ l) :
    jsIndexOf l c = -1 := by
  induction l with
  | nil => rfl
  | cons x xs ih =>
    simp only [List.mem_cons, not_or] at h
    simp [jsIndexOf, Ne.symm h.1, ih h.2]

theorem jsIndexOf_mem {l : List Nat} {c : Nat} (h : c ∈ l) :
    0 ≤ jsIndexOf l c ∧ jsSplice1 l (jsIndexOf l c) = l.erase c := by
  induction l with
  | nil => cases h
  | cons x xs ih =>
    by_cases hx : x = c
    · subst hx
      refine ⟨by simp [jsIndexOf], ?_⟩
      simp [jsIndexOf, jsSplice1, List.eraseIdx, List.erase_cons]
    · have hc : c ∈ xs := by
        rcases List.mem_cons.mp h with h1 | h1
        · exact absurd h1.symm hx
        · exact h1
      obtain ⟨hge, hsp⟩ := ih hc
      have hne : jsIndexOf xs c ≠ -1 := by omega
      refine ⟨?_, ?_⟩
      · simp only [jsIndexOf, if_neg hx, if_neg hne]; omega
      · simp only [jsIndexOf, if_neg hx, if_neg hne, jsSplice1] at *
        have hlt : ¬ (jsIndexOf xs c + 1 < (0 : Int)) := by omega
        have hnlt : ¬ (jsIndexOf xs c < (0 : Int)) := by omega
        simp only [if_neg hlt, if_neg hnlt] at *
        have htn : (jsIndexOf xs c + 1).toNat = (jsIndexOf xs c).toNat + 1 := by omega
        rw [htn]
        simp [List.eraseIdx, List.erase_cons, hx, hsp]

/-- Modelled from the spec: `RenderGroup.removeChild(child)` "detaches it
from its render group" (spec 4.2) and records the structural change for
the group (spec 4.4).  The recursive treatment of the child's own subtree
by the render group is not exercised by any theorem below and is modelled
one level deep. -/
def rgRemoveChild (w : World) (g child : Nat) : World :=
  let w := updG w g (fun rg => { rg with structureDidChange := true })
  updC w child (fun c => { c with renderGroup := none })

/-- Modelled from the spec: `RenderGroup.addRenderGroupChild(childGroup)` —
a nested group "becomes a child of the new group instead of the old one"
(spec 4.4): it is removed from its previous parent group's child list, its
parent pointer is set to this group, and it is appended to this group's
child list. -/
def addRenderGroupChild (w : World) (self childG : Nat) : World :=
  let w := match (w.groups childG).renderGroupParent with
    | some old =>
        updG w old (fun rg =>
          { rg with renderGroupChildren := rg.renderGroupChildren.erase childG })
    | none => w
  let w := updG w childG (fun rg => { rg with renderGroupParent := some self })
  updG w self (fun rg => { rg with renderGroupChildren := rg.renderGroupChildren ++ [childG] })

/-- Modelled from the spec: `RenderGroup.addChild(child)` "propagates
render-group membership" (spec 4.2): a child that is itself a render-group
root is re-homed as a nested child group, otherwise the child's
renderGroup pointer is set to this group.  Propagation to deeper
descendants is handled inside the render group, is not exercised by any
theorem below, and is modelled one level deep. -/
def rgAddChild (w : World) (g child : Nat) : World :=
  if (w.containers child).isRenderGroupRoot then
    match (w.containers child).renderGroup with
    | some cg => addRenderGroupChild w g cg
    | none => w
  else
    updC w child (fun c => { c with renderGroup := some g })

/-- `Container.removeChild`, single-child path (source lines 609–642):
look the child up by identity, splice it out when found (also detaching it
from this node's render group), then unconditionally null the child's
parent pointer and emit `childRemoved`/`removed` with the pre-removal
index (`-1` when not found). -/
def removeChild (w : World) (self child : Nat) : World × List Event :=
  let index : Int := jsIndexOf (w.containers self).children child
  let w :=
    if -1 < index then
      let w := updC w self (fun c => { c with children := jsSplice1 c.children index })
      match (w.containers self).renderGroup with
      | some g => rgRemoveChild w g child
      | none => w
    else w
  let w := updC w child (fun c => { c with parent := none })
  (w, [Event.childRemoved child self index, Event.removed child self])

/-- `Container.addChild`, single-child path (source lines 537–602).  A
child already parented to this container is re-appended to the end of the
list (reorder-to-top) and the owning render group's structural flag is set
unless this container is a render-group root; otherwise the child is
removed from its previous parent, appended, reparented, marked fully
dirty, propagated into this node's render group, and notified, with the
sort hook fired when its z-index is non-zero. -/
def addChild (w : World) (self child : Nat) : World × List Event :=
  if (w.containers child).parent = some self then
    let w := updC w self (fun c =>
      { c with children := jsSplice1 c.children (jsIndexOf c.children child) ++ [child] })
    let w := match (w.containers self).renderGroup with
      | some g =>
          if (w.containers self).isRenderGroupRoot then w
          else updG w g (fun rg => { rg with structureDidChange := true })
      | none => w
    (w, [])
  else
    let step1 := match (w.containers child).parent with
      | some p => removeChild w p child
      | none => (w, [])
    let w := step1.1
    let w := updC w self (fun c => { c with children := c.children ++ [child] })
    let w := if (w.containers self).sortableChildren
      then updC w self (fun c => { c with sortDirty := true }) else w
    let w := updC w child (fun c =>
      { c with parent := some self, didChange := true, didViewUpdate := false,
               updateFlags := 0b1111 })
    let w := match (w.containers self).renderGroup with
      | some g => rgAddChild w g child
      | none => w
    let evs := step1.2 ++
      [Event.childAdded child self ((w.containers self).children.length - 1),
       Event.added child self]
    let evs := if (w.containers child).zIndex ≠ 0
      then evs ++ [Event.depthModified child] else evs
    (w, evs)

/-- Container._updateSkew (source lines 926–935): recomputes the four
cached basis scalars, which are cos/sin of the two angles
`rotation + skew.y` and `rotation - skew.x`; the model stores the two
angles (see `Container.basisArgs`).  A destroyed node's skew observable is
null in the source; the model falls back to the origin there (never
exercised by a theorem). -/
def updateSkewCaches (c : Container) : Container :=
  { c with basisArgs :=
      (c.rotation + (c.skew.getD ⟨0, 0⟩).y, c.rotation - (c.skew.getD ⟨0, 0⟩).x) }

/-- Container.onUpdate (source lines 645–674): when notified by the skew
observable, first recompute the cached basis scalars unconditionally; then
coalesce on the `didChange` latch, and notify upward at most once — a
render-group root hands the event to its group's parent group, any other
member notifies its own group (`RenderGroup.onChildUpdate`, modelled from
the spec as a log entry).  When a render-group root has no render group —
impossible in states reachable in the source, which creates the group
whenever the root flag is set — the model is silent where the source would
fail on a null group. -/
def onUpdate (w : World) (self : Nat) (point : Option PointKind) : World × List Event :=
  let w := if point = some PointKind.skew then updC w self updateSkewCaches else w
  if (w.containers self).didChange then (w, [])
  else
    let w := updC w self (fun c => { c with didChange := true })
    let c := w.containers self
    let evs :=
      if c.isRenderGroupRoot then
        match c.renderGroup with
        | some g =>
          (match (w.groups g).renderGroupParent with
           | some pg => [Event.onChildUpdate pg self]
           | none => [])
        | none => []
      else
        match c.renderGroup with
        | some g => [Event.onChildUpdate g self]
        | none => []
    (w, evs)

/-- One instance of the bidirectional parent/child link: node `n` appears
in `p`'s children exactly when `n`'s parent pointer is `p`. -/
def consistentPair (w : World) (p n : Nat) : Prop :=
  n ∈ (w.containers p).children ↔ (w.containers n).parent = some p

instance (w : World) (p n : Nat) : Decidable (consistentPair w p n) := by
  unfold consistentPair; infer_instance

/-- The spec's tree invariant: every parent/child pair is consistent. -/
def consistent (w : World) : Prop :=
  ∀ p n, consistentPair w p n

/-- No child appears twice in the same children list (each node is owned
once; implicit in "exclusively owned by its parent"). -/
def nodupChildren (w : World) : Prop :=
  ∀ p, (w.containers p).children.Nodup

theorem updC_containers (w : World) (i : Nat) (f : Container → Container) (j : Nat) :
    (updC w i f).containers j = if j = i then f (w.containers j) else w.containers j := rfl

theorem updG_containers (w : World) (i : Nat) (f : RenderGroup → RenderGroup) (j : Nat) :
    (updG w i f).containers j = w.containers j := rfl

theorem addRenderGroupChild_containers (w : World) (s cg : Nat) :
    (addRenderGroupChild w s cg).containers = w.containers := by
  unfold addRenderGroupChild
  cases (w.groups cg).renderGroupParent <;> rfl

theorem rgRemoveChild_children (w : World) (g ch j : Nat) :
    ((rgRemoveChild w g ch).containers j).children = (w.containers j).children := by
  simp only [rgRemoveChild, updC_containers, updG_containers]
  split <;> rfl

theorem rgRemoveChild_parent (w : World) (g ch j : Nat) :
    ((rgRemoveChild w g ch).containers j).parent = (w.containers j).parent := by
  simp only [rgRemoveChild, updC_containers, updG_containers]
  split <;> rfl

theorem rgAddChild_children (w : World) (g ch j : Nat) :
    ((rgAddChild w g ch).containers j).children = (w.containers j).children := by
  unfold rgAddChild
  split
  · cases (w.containers ch).renderGroup
    · rfl
    · rw [addRenderGroupChild_containers]
  · simp only [updC_containers]; split <;> rfl

theorem rgAddChild_parent (w : World) (g ch j : Nat) :
    ((rgAddChild w g ch).containers j).parent = (w.containers j).parent := by
  unfold rgAddChild
  split
  · cases (w.containers ch).renderGroup
    · rfl
    · rw [addRenderGroupChild_containers]
  · simp only [updC_containers]; split <;> rfl

theorem removeChild_of_not_mem {w : World} {p c : Nat}
    (h : c ∉ (w.containers p).children) :
    removeChild w p c =
      (updC w c (fun x => { x with parent := none }),
       [Event.childRemoved c p (-1), Event.removed c p]) := by
  simp only [removeChild, jsIndexOf_eq_neg_one h]
  norm_num

theorem removeChild_state_of_mem {w : World} {p c : Nat}
    (h : c ∈ (w.containers p).children) (j : Nat) :
    (((removeChild w p c).1.containers j).children =
       if j = p then (w.containers p).children.erase c else (w.containers j).children)
    ∧ (((removeChild w p c).1.containers j).parent =
       if j = c then none else (w.containers j).parent) := by
  obtain ⟨hge, hsp⟩ := jsIndexOf_mem h
  simp only [removeChild]
  rw [if_pos (by omega : (-1 : Int) < jsIndexOf (w.containers p).children c)]
  simp only [updC_containers, if_pos rfl]
  cases hrg : (w.containers p).renderGroup with
  | none =>
    refine ⟨?_, ?_⟩ <;>
      rcases eq_or_ne j c with rfl | hjc <;>
        rcases eq_or_ne j p with rfl | hjp <;>
          simp_all [updC_containers, hsp]
  | some g =>
    refine ⟨?_, ?_⟩ <;>
      rcases eq_or_ne j c with rfl | hjc <;>
        rcases eq_or_ne j p with rfl | hjp <;>
          simp_all [updC_containers, rgRemoveChild_children, rgRemoveChild_parent, hsp]

theorem updC_parent_none_children (w : World) (c j : Nat) :
    ((updC w c fun x => { x with parent := none }).containers j).children =
      (w.containers j).children := by
  rw [updC_containers]; split <;> rfl

theorem updC_parent_none_parent (w : World) (c j : Nat) :
    ((updC w c fun x => { x with parent := none }).containers j).parent =
      if j = c then none else (w.containers j).parent := by
  rcases eq_or_ne j c with rfl | h
  · simp [updC_containers]
  · simp [updC_containers, h]

theorem consistent_removeChild_orphan {w : World} {p c : Nat}
    (hc : consistent w) (hn : nodupChildren w)
    (hp : (w.containers c).parent = none) :
    consistent (removeChild w p c).1 ∧ nodupChildren (removeChild w p c).1 := by
  have hnm : c ∉ (w.containers p).children := by
    intro hmem
    rw [(hc p c).mp hmem] at hp
    cases hp
  rw [removeChild_of_not_mem hnm]
  constructor
  · intro p' n
    unfold consistentPair
    rw [updC_parent_none_children, updC_parent_none_parent]
    rcases eq_or_ne n c with rfl | hnc
    · have h1 : n ∈ (w.containers p').children ↔ (w.containers n).parent = some p' :=
        hc p' n
      rw [hp] at h1
      simp only [if_pos rfl, h1]
      simp
    · rw [if_neg hnc]
      exact hc p' n
  · intro p'
    rw [updC_parent_none_children]
    exact hn p'

theorem consistent_removeChild_self {w : World} {p c : Nat}
    (hc : consistent w) (hn : nodupChildren w)
    (hp : (w.containers c).parent = some p) :
    consistent (removeChild w p c).1 ∧ nodupChildren (removeChild w p c).1 := by
  have hm : c ∈ (w.containers p).children := (hc p c).mpr hp
  constructor
  · intro p' n
    have hch := (removeChild_state_of_mem hm p').1
    have hpar := (removeChild_state_of_mem hm n).2
    unfold consistentPair
    rw [hch, hpar]
    rcases eq_or_ne n c with rfl | hnc
    · rw [if_pos rfl]
      rcases eq_or_ne p' p with rfl | hpp
      · rw [if_pos rfl]
        simp [(hn p').not_mem_erase]
      · rw [if_neg hpp]
        have h1 : n ∈ (w.containers p').children ↔ (w.containers n).parent = some p' :=
          hc p' n
        rw [hp] at h1
        simp only [h1]
        simp [Ne.symm hpp]
    · rw [if_neg hnc]
      rcases eq_or_ne p' p with rfl | hpp
      · rw [if_pos rfl, List.mem_erase_of_ne hnc]
        exact hc p' n
      · rw [if_neg hpp]
        exact hc p' n
  · intro p'
    rw [(removeChild_state_of_mem hm p').1]
    split
    · exact (hn p).erase c
    · exact hn p'

/-- World used as the concrete input refuting C2: node 1 has child 2 (a
consistent link), node 0 is unrelated. -/
def wC2ce : World :=
  { containers := fun j =>
      if j = 1 then { Container.mkDefault with children := [2] }
      else if j = 2 then { Container.mkDefault with parent := some 1 }
      else Container.mkDefault
    groups := fun _ => RenderGroup.mkNew 0
    nextGroupId := 0 }

/-- C2, counterexample: node 2 is not among node 0's children, yet
`removeChild 0 2` modifies node 2 — its parent pointer (previously node 1)
is set to null, contradicting "returns C with all of C's fields
unmodified (in particular C's parent pointer is unchanged)". -/
theorem claim_c2_counterexample :
    2 ∉ (wC2ce.containers 0).children ∧
    (wC2ce.containers 2).parent = some 1 ∧
    ((removeChild wC2ce 0 2).1.containers 2).parent = none := by
  refine ⟨by decide, by decide, by decide⟩

/-- C2 (amended): removing a node `c` not present in `p`'s children leaves
`p`'s children unchanged, leaves every node other than `c` unmodified, and
passes `-1` as the index in the removal notifications — but it does not
return `c` unmodified: `c`'s parent pointer is unconditionally set to
null (all other fields of `c` are unchanged). -/
theorem claim_c2_remove_non_child (w : World) (p c : Nat)
    (h : c ∉ (w.containers p).children) :
    removeChild w p c =
      (updC w c (fun x => { x with parent := none }),
       [Event.childRemoved c p (-1), Event.removed c p]) ∧
    ((removeChild w p c).1.containers p).children = (w.containers p).children ∧
    ((removeChild w p c).1.containers c).parent = none ∧
    (∀ j, j ≠ c → (removeChild w p c).1.containers j = w.containers j) := by
  have he := removeChild_of_not_mem h
  rw [he]
  refine ⟨rfl, updC_parent_none_children w c p, ?_, ?_⟩
  · rw [updC_parent_none_parent]
    simp
  · intro j hj
    rw [updC_containers, if_neg hj]

theorem sortStep_containers (w : World) (self j : Nat) (b : Bool) :
    (((if b then updC w self (fun c => { c with sortDirty := true }) else w)).containers
        j).children = (w.containers j).children ∧
    (((if b then updC w self (fun c => { c with sortDirty := true }) else w)).containers
        j).parent = (w.containers j).parent := by
  constructor <;> cases b
  · rfl
  · rw [if_pos rfl, updC_containers]
    split <;> rfl
  · rfl
  · rw [if_pos rfl, updC_containers]
    split <;> rfl

/-- Characterization of the reorder-to-top branch of `addChild`: the child
already parented here is moved to the end of the children list, and no
container field other than this list changes. -/
theorem addChild_state_reorder {w : World} {self c : Nat}
    (hpar : (w.containers c).parent = some self)
    (hm : c ∈ (w.containers self).children) (j : Nat) :
    (((addChild w self c).1.containers j).children =
      if j = self then (w.containers self).children.erase c ++ [c]
      else (w.containers j).children)
    ∧ ((addChild w self c).1.containers j = if j = self then
        { w.containers self with
            children := (w.containers self).children.erase c ++ [c] }
      else w.containers j)
    ∧ (addChild w self c).2 = [] := by
  obtain ⟨hge, hsp⟩ := jsIndexOf_mem hm
  simp only [addChild, if_pos hpar]
  simp only [updC_containers, if_pos rfl]
  cases hrg : (w.containers self).renderGroup with
  | none =>
    refine ⟨?_, ?_, by trivial⟩
    · rcases eq_or_ne j self with rfl | hj
      · simp [updC_containers, hsp, hrg]
      · simp [updC_containers, hj]
    · rcases eq_or_ne j self with rfl | hj
      · simp [updC_containers, hsp, hrg]
      · simp [updC_containers, hj]
  | some g =>
    cases hroot : (w.containers self).isRenderGroupRoot
    · refine ⟨?_, ?_, by trivial⟩
      · rcases eq_or_ne j self with rfl | hj
        · simp [updC_containers, updG_containers, hsp, hrg, hroot]
        · simp [updC_containers, updG_containers, hj]
      · rcases eq_or_ne j self with rfl | hj
        · simp [updC_containers, updG_containers, hsp, hrg, hroot]
        · simp [updC_containers, updG_containers, hj]
    · refine ⟨?_, ?_, by trivial⟩
      · rcases eq_or_ne j self with rfl | hj
        · simp [updC_containers, hsp, hrg, hroot]
        · simp [updC_containers, hj]
      · rcases eq_or_ne j self with rfl | hj
        · simp [updC_containers, hsp, hrg, hroot]
        · simp [updC_containers, hj]

/-- Characterization of the `addChild` branch moving a child from another
parent `q`: the child is spliced out of `q`, appended to `self`, and its
parent pointer is set to `self`. -/
theorem addChild_state_move {w : World} {self c q : Nat}
    (hq : (w.containers c).parent = some q) (hqs : q ≠ self)
    (hm : c ∈ (w.containers q).children) (j : Nat) :
    (((addChild w self c).1.containers j).children =
      if j = self then (w.containers self).children ++ [c]
      else if j = q then (w.containers q).children.erase c
      else (w.containers j).children)
    ∧ (((addChild w self c).1.containers j).parent =
      if j = c then some self else (w.containers j).parent) := by
  simp only [addChild, hq, Option.some.injEq, if_neg hqs]
  set w1 := (removeChild w q c).1 with hw1
  have h1c : ∀ i, (w1.containers i).children =
      if i = q then (w.containers q).children.erase c else (w.containers i).children :=
    fun i => (removeChild_state_of_mem hm i).1
  have h1p : ∀ i, (w1.containers i).parent =
      if i = c then none else (w.containers i).parent :=
    fun i => (removeChild_state_of_mem hm i).2
  set w2 := updC w1 self (fun c0 => { c0 with children := c0.children ++ [c] }) with hw2
  have h2c : ∀ i, (w2.containers i).children =
      if i = self then (w1.containers self).children ++ [c]
      else (w1.containers i).children := by
    intro i
    rw [hw2, updC_containers]
    split
    · next hi => rw [hi]
    · rfl
  have h2p : ∀ i, (w2.containers i).parent = (w1.containers i).parent := by
    intro i
    rw [hw2, updC_containers]
    split
    · next hi => rw [hi]
    · rfl
  set b := (w2.containers self).sortableChildren
  set w3 := if b then updC w2 self (fun c0 => { c0 with sortDirty := true }) else w2
    with hw3
  have h3c : ∀ i, (w3.containers i).children = (w2.containers i).children :=
    fun i => (sortStep_containers w2 self i b).1
  have h3p : ∀ i, (w3.containers i).parent = (w2.containers i).parent :=
    fun i => (sortStep_containers w2 self i b).2
  set w4 := updC w3 c (fun c0 =>
    { c0 with parent := some self, didChange := true, didViewUpdate := false,
              updateFlags := 0b1111 }) with hw4
  have h4c : ∀ i, (w4.containers i).children = (w3.containers i).children := by
    intro i
    rw [hw4, updC_containers]
    split
    · next hi => rw [hi]
    · rfl
  have h4p : ∀ i, (w4.containers i).parent =
      if i = c then some self else (w3.containers i).parent := by
    intro i
    rw [hw4, updC_containers]
    split
    · next hi => rw [hi]
    · rfl
  cases hrg : (w4.containers self).renderGroup with
  | none =>
    simp only [hrg]
    constructor
    · rw [h4c, h3c, h2c, h1c, h1c]
      rcases eq_or_ne j self with rfl | hj
      · rw [if_pos rfl, if_pos rfl, if_neg (Ne.symm hqs)]
      · rw [if_neg hj, if_neg hj]
    · rw [h4p, h3p, h2p, h1p]
      rcases eq_or_ne j c with rfl | hj
      · rw [if_pos rfl, if_pos rfl]
      · simp [hj]
  | some g =>
    simp only [hrg]
    constructor
    · rw [rgAddChild_children, h4c, h3c, h2c, h1c, h1c]
      rcases eq_or_ne j self with rfl | hj
      · rw [if_pos rfl, if_pos rfl, if_neg (Ne.symm hqs)]
      · rw [if_neg hj, if_neg hj]
    · rw [rgAddChild_parent, h4p, h3p, h2p, h1p]
      rcases eq_or_ne j c with rfl | hj
      · rw [if_pos rfl, if_pos rfl]
      · simp [hj]

/-- Characterization of the `addChild` branch attaching a previously
parentless child. -/
theorem addChild_state_orphan {w : World} {self c : Nat}
    (hq : (w.containers c).parent = none) (j : Nat) :
    (((addChild w self c).1.containers j).children =
      if j = self then (w.containers self).children ++ [c]
      else (w.containers j).children)
    ∧ (((addChild w self c).1.containers j).parent =
      if j = c then some self else (w.containers j).parent) := by
  have hns : ¬ ((none : Option Nat) = some self) := by intro hcon; cases hcon
  simp only [addChild, hq, if_neg hns]
  set w2 := updC w self (fun c0 => { c0 with children := c0.children ++ [c] }) with hw2
  have h2c : ∀ i, (w2.containers i).children =
      if i = self then (w.containers self).children ++ [c]
      else (w.containers i).children := by
    intro i
    rw [hw2, updC_containers]
    split
    · next hi => rw [hi]
    · rfl
  have h2p : ∀ i, (w2.containers i).parent = (w.containers i).parent := by
    intro i
    rw [hw2, updC_containers]
    split
    · next hi => rw [hi]
    · rfl
  set b := (w2.containers self).sortableChildren
  set w3 := if b then updC w2 self (fun c0 => { c0 with sortDirty := true }) else w2
    with hw3
  have h3c : ∀ i, (w3.containers i).children = (w2.containers i).children :=
    fun i => (sortStep_containers w2 self i b).1
  have h3p : ∀ i, (w3.containers i).parent = (w2.containers i).parent :=
    fun i => (sortStep_containers w2 self i b).2
  set w4 := updC w3 c (fun c0 =>
    { c0 with parent := some self, didChange := true, didViewUpdate := false,
              updateFlags := 0b1111 }) with hw4
  have h4c : ∀ i, (w4.containers i).children = (w3.containers i).children := by
    intro i
    rw [hw4, updC_containers]
    split
    · next hi => rw [hi]
    · rfl
  have h4p : ∀ i, (w4.containers i).parent =
      if i = c then some self else (w3.containers i).parent := by
    intro i
    rw [hw4, updC_containers]
    split
    · next hi => rw [hi]
    · rfl
  cases hrg : (w4.containers self).renderGroup with
  | none =>
    simp only [hrg]
    exact ⟨by rw [h4c, h3c, h2c], by rw [h4p, h3p, h2p]⟩
  | some g =>
    simp only [hrg]
    exact ⟨by rw [rgAddChild_children, h4c, h3c, h2c],
           by rw [rgAddChild_parent, h4p, h3p, h2p]⟩

theorem consistent_addChild {w : World} (hc : consistent w) (hn : nodupChildren w)
    (self c : Nat) :
    consistent (addChild w self c).1 ∧ nodupChildren (addChild w self c).1 := by
  rcases hq : (w.containers c).parent with _ | q
  · -- previously parentless child
    have hnm : ∀ p', c ∉ (w.containers p').children := by
      intro p' hmem
      rw [(hc p' c).mp hmem] at hq
      cases hq
    constructor
    · intro p' n
      have hch := (@addChild_state_orphan w self c hq p').1
      have hpar := (@addChild_state_orphan w self c hq n).2
      unfold consistentPair
      rw [hch, hpar]
      rcases eq_or_ne n c with rfl | hnc
      · rw [if_pos rfl]
        rcases eq_or_ne p' self with rfl | hps
        · simp
        · rw [if_neg hps]
          simp [hnm p', Ne.symm hps]
      · rw [if_neg hnc]
        rcases eq_or_ne p' self with rfl | hps
        · rw [if_pos rfl]
          simp only [List.mem_append, List.mem_singleton, hnc, or_false]
          exact hc p' n
        · rw [if_neg hps]
          exact hc p' n
    · intro p'
      rw [(@addChild_state_orphan w self c hq p').1]
      split
      · simp [List.nodup_append, hn self, hnm self]
      · exact hn p'
  · rcases eq_or_ne q self with rfl | hqs
    · -- reorder-to-top branch
      have hmem : c ∈ (w.containers q).children := (hc q c).mpr hq
      have hch := fun j => (addChild_state_reorder hq hmem j).1
      have hrec := fun j => (addChild_state_reorder hq hmem j).2.1
      have hpar : ∀ j, ((addChild w q c).1.containers j).parent = (w.containers j).parent := by
        intro j
        rw [hrec j]
        split
        · next h => subst h; rfl
        · rfl
      constructor
      · intro p' n
        unfold consistentPair
        rw [hch, hpar]
        rcases eq_or_ne p' q with rfl | hps
        · rw [if_pos rfl]
          rcases eq_or_ne n c with rfl | hnc
          · simp [hq]
          · simp only [List.mem_append, List.mem_singleton, hnc, or_false,
              List.mem_erase_of_ne hnc]
            exact hc p' n
        · rw [if_neg hps]
          exact hc p' n
      · intro p'
        rw [hch p']
        split
        · next h =>
            subst h
            simp [List.nodup_append, (hn p').erase c, (hn p').not_mem_erase]
        · exact hn p'
    · -- child moved over from another parent q
      have hmem : c ∈ (w.containers q).children := (hc q c).mpr hq
      have hch := fun j => (addChild_state_move hq hqs hmem j).1
      have hpar := fun j => (addChild_state_move hq hqs hmem j).2
      have hcs : c ∉ (w.containers self).children := by
        intro hm2
        rw [(hc self c).mp hm2] at hq
        exact hqs (Option.some.injEq _ _ ▸ hq).symm
      constructor
      · intro p' n
        unfold consistentPair
        rw [hch, hpar]
        rcases eq_or_ne n c with rfl | hnc
        · rw [if_pos rfl]
          rcases eq_or_ne p' self with rfl | hps
          · simp
          · rw [if_neg hps]
            rcases eq_or_ne p' q with rfl | hpq
            · simp [(hn p').not_mem_erase, Ne.symm hps]
            · rw [if_neg hpq]
              have h1 : n ∈ (w.containers p').children ↔ (w.containers n).parent = some p' :=
                hc p' n
              rw [hq] at h1
              rw [h1]
              simp [Ne.symm hps, Ne.symm hpq]
        · rw [if_neg hnc]
          rcases eq_or_ne p' self with rfl | hps
          · rw [if_pos rfl]
            simp only [List.mem_append, List.mem_singleton, hnc, or_false]
            exact hc p' n
          · rw [if_neg hps]
            rcases eq_or_ne p' q with rfl | hpq
            · rw [if_pos rfl, List.mem_erase_of_ne hnc]
              exact hc p' n
            · rw [if_neg hpq]
              exact hc p' n
      · intro p'
        rw [hch p']
        split
        · simp [List.nodup_append, hn self, hcs]
        · split
          · exact (hn q).erase c
          · exact hn p'

/-- World used as the concrete input refuting C1: node 1 has child 2 (a
consistent link), node 0 is unrelated. -/
def wC1ce : World :=
  { containers := fun j =>
      if j = 1 then { Container.mkDefault with children := [2] }
      else if j = 2 then { Container.mkDefault with parent := some 1 }
      else Container.mkDefault
    groups := fun _ => RenderGroup.mkNew 0
    nextGroupId := 0 }

/-- C1, counterexample: in a fully consistent world where node 2 is a
child of node 1, calling `removeChild` on the unrelated node 0 breaks the
bidirectional link of the pair (1, 2): node 2 keeps its place in node 1's
children while its parent pointer is nulled. -/
theorem claim_c1_counterexample :
    consistent wC1ce ∧ ¬ consistentPair (removeChild wC1ce 0 2).1 1 2 := by
  constructor
  · intro p n
    unfold consistentPair wC1ce
    by_cases hp1 : p = 1 <;> by_cases hp2 : p = 2 <;>
      by_cases hn1 : n = 1 <;> by_cases hn2 : n = 2 <;>
        simp_all [Container.mkDefault] <;> omega
  · decide

/-- C1 (amended): `addChild` always preserves the bidirectional
parent/child invariant (and duplicate-freeness of children lists), and
`removeChild` preserves it provided the removed node's parent pointer is
the receiver or null.  (As the counterexample shows, removing a node that
is a child of a different container breaks that container's link, because
the source nulls the parent pointer even when the child was not found.) -/
theorem claim_c1_link_invariant (w : World) (p c : Nat)
    (hc : consistent w) (hn : nodupChildren w) :
    (consistent (addChild w p c).1 ∧ nodupChildren (addChild w p c).1) ∧
    (((w.containers c).parent = some p ∨ (w.containers c).parent = none) →
      consistent (removeChild w p c).1 ∧ nodupChildren (removeChild w p c).1) := by
  refine ⟨consistent_addChild hc hn p c, ?_⟩
  rintro (hp | hp)
  · exact consistent_removeChild_self hc hn hp
  · exact consistent_removeChild_orphan hc hn hp

/-- World used to witness C1: every container is at its defaults. -/
def wC1w : World :=
  { containers := fun _ => Container.mkDefault
    groups := fun _ => RenderGroup.mkNew 0
    nextGroupId := 0 }

/-- C1 witness: the amended invariant-preservation theorem applied at a
concrete world. -/
theorem claim_c1_link_invariant_witness :
    consistent wC1w ∧ nodupChildren wC1w ∧
    (consistent (addChild wC1w 0 1).1 ∧ nodupChildren (addChild wC1w 0 1).1) ∧
    consistent (removeChild wC1w 0 1).1 := by
  have hc : consistent wC1w := by
    intro p n
    unfold consistentPair wC1w
    simp [Container.mkDefault]
  have hn : nodupChildren wC1w := by
    intro p
    simp [wC1w, Container.mkDefault]
  refine ⟨hc, hn, (claim_c1_link_invariant wC1w 0 1 hc hn).1, ?_⟩
  exact ((claim_c1_link_invariant wC1w 0 1 hc hn).2 (Or.inr rfl)).1

theorem addChild_groups_reorder {w : World} {self c : Nat}
    (hpar : (w.containers c).parent = some self)
    (hm : c ∈ (w.containers self).children) :
    (addChild w self c).1.groups =
      (match (w.containers self).renderGroup with
       | some g =>
           if (w.containers self).isRenderGroupRoot then w.groups
           else fun j => if j = g then { w.groups j with structureDidChange := true }
                else w.groups j
       | none => w.groups) := by
  simp only [addChild, if_pos hpar]
  simp only [updC_containers, if_pos rfl]
  cases hrg : (w.containers self).renderGroup with
  | none => rfl
  | some g =>
    cases hroot : (w.containers self).isRenderGroupRoot <;> simp [hroot] <;> rfl

/-- C5: re-adding a child already parented to this container moves it to
the end of the children list, changes nothing else about the child (in
particular neither its parent pointer nor its render-group membership),
and sets the owning render group's `structureDidChange` flag exactly when
this container has a render group and is not itself a render-group
root. -/
theorem claim_c5_readd (w : World) (p c : Nat)
    (hpar : (w.containers c).parent = some p)
    (hm : c ∈ (w.containers p).children) :
    ((addChild w p c).1.containers p).children
        = (w.containers p).children.erase c ++ [c] ∧
    ((addChild w p c).1.containers c).parent = (w.containers c).parent ∧
    ((addChild w p c).1.containers c).renderGroup = (w.containers c).renderGroup ∧
    (∀ g, (w.containers p).renderGroup = some g →
      (w.containers p).isRenderGroupRoot = false →
        ((addChild w p c).1.groups g).structureDidChange = true ∧
        ∀ g2, g2 ≠ g → (addChild w p c).1.groups g2 = w.groups g2) ∧
    (((w.containers p).renderGroup = none ∨ (w.containers p).isRenderGroupRoot = true) →
      (addChild w p c).1.groups = w.groups) := by
  have hch := (addChild_state_reorder hpar hm p).1
  have hrec := (addChild_state_reorder hpar hm c).2.1
  have hgr := addChild_groups_reorder hpar hm
  refine ⟨by rw [hch, if_pos rfl], ?_, ?_, ?_, ?_⟩
  · rw [hrec]
    split
    · next h => subst h; rfl
    · rfl
  · rw [hrec]
    split
    · next h => subst h; rfl
    · rfl
  · intro g hg hroot
    rw [hgr, hg]
    simp only [hroot, Bool.false_eq_true, if_false]
    exact ⟨by simp, fun g2 h2 => by simp [h2]⟩
  · rintro (hg | hroot)
    · rw [hgr, hg]
    · rw [hgr]
      rcases hg2 : (w.containers p).renderGroup with _ | g
      · rfl
      · simp [hroot]

/-- World used to witness C5: node 0 (a non-root member of render group 0)
has children 1 and 2; group 0 starts with a clear structural flag. -/
def wC5w : World :=
  { containers := fun j =>
      if j = 0 then { Container.mkDefault with children := [1, 2], renderGroup := some 0 }
      else if j = 1 then { Container.mkDefault with parent := some 0, renderGroup := some 0 }
      else if j = 2 then { Container.mkDefault with parent := some 0, renderGroup := some 0 }
      else Container.mkDefault
    groups := fun _ =>
      { root := 5
        renderGroupParent := none
        renderGroupChildren := []
        structureDidChange := false
        worldTransform := Matrix.identity
        proxyRenderable := none }
    nextGroupId := 1 }

/-- C5 witness: the theorem applied at the concrete world — child 1 moves
to the end of node 0's list and group 0's structural flag is set. -/
theorem claim_c5_readd_witness :
    (wC5w.containers 1).parent = some 0 ∧ 1 ∈ (wC5w.containers 0).children ∧
    ((addChild wC5w 0 1).1.containers 0).children = [2, 1] ∧
    ((addChild wC5w 0 1).1.containers 1).parent = some 0 ∧
    ((addChild wC5w 0 1).1.groups 0).structureDidChange = true := by
  have h1 : (wC5w.containers 1).parent = some 0 := by decide
  have h2 : (1 : Nat) ∈ (wC5w.containers 0).children := by decide
  have hall := claim_c5_readd wC5w 0 1 h1 h2
  refine ⟨h1, h2, ?_, ?_, ?_⟩
  · rw [hall.1]; decide
  · rw [hall.2.1]; decide
  · exact (hall.2.2.2.1 0 (by decide) (by decide)).1

/-- C2 witness: the amended theorem applied at the concrete world. -/
theorem claim_c2_remove_non_child_witness :
    2 ∉ (wC2ce.containers 0).children ∧
    ((removeChild wC2ce 0 2).1.containers 0).children = (wC2ce.containers 0).children ∧
    ((removeChild wC2ce 0 2).1.containers 2).parent = none :=
  ⟨by decide, (claim_c2_remove_non_child wC2ce 0 2 (by decide)).2.1,
    (claim_c2_remove_non_child wC2ce 0 2 (by decide)).2.2.1⟩

theorem ite_updSkew_didChange (w : World) (n j : Nat) (c : Prop) [Decidable c] :
    (((if c then updC w n updateSkewCaches else w)).containers j).didChange =
      (w.containers j).didChange := by
  split
  · rw [updC_containers]; split <;> rfl
  · rfl

theorem ite_updSkew_root (w : World) (n j : Nat) (c : Prop) [Decidable c] :
    (((if c then updC w n updateSkewCaches else w)).containers j).isRenderGroupRoot =
      (w.containers j).isRenderGroupRoot := by
  split
  · rw [updC_containers]; split <;> rfl
  · rfl

theorem ite_updSkew_rg (w : World) (n j : Nat) (c : Prop) [Decidable c] :
    (((if c then updC w n updateSkewCaches else w)).containers j).renderGroup =
      (w.containers j).renderGroup := by
  split
  · rw [updC_containers]; split <;> rfl
  · rfl

theorem ite_updSkew_groups (w : World) (n : Nat) (c : Prop) [Decidable c] :
    ((if c then updC w n updateSkewCaches else w)).groups = w.groups := by
  split <;> rfl

theorem updC_groups (w : World) (n : Nat) (f : Container → Container) :
    (updC w n f).groups = w.groups := rfl

theorem updC_dct_root (w : World) (n j : Nat) :
    ((updC w n fun c => { c with didChange := true }).containers j).isRenderGroupRoot =
      (w.containers j).isRenderGroupRoot := by
  rw [updC_containers]; split <;> rfl

theorem updC_dct_rg (w : World) (n j : Nat) :
    ((updC w n fun c => { c with didChange := true }).containers j).renderGroup =
      (w.containers j).renderGroup := by
  rw [updC_containers]; split <;> rfl

theorem updC_dct_self (w : World) (n : Nat) :
    ((updC w n fun c => { c with didChange := true }).containers n).didChange = true := by
  rw [updC_containers, if_pos rfl]

/-- A call to `onUpdate` on a node whose latch is already set only runs the
skew-cache recomputation and emits nothing. -/
theorem onUpdate_already {w : World} {n : Nat} (pt : Option PointKind)
    (h : (w.containers n).didChange = true) :
    onUpdate w n pt =
      ((if pt = some PointKind.skew then updC w n updateSkewCaches else w), []) := by
  simp only [onUpdate]
  rw [if_pos (by rw [ite_updSkew_didChange]; exact h)]

/-- A call to `onUpdate` on a node with a clear latch sets the latch and
notifies once according to the render-group linkage. -/
theorem onUpdate_fresh {w : World} {n : Nat} (pt : Option PointKind)
    (h0 : (w.containers n).didChange = false) :
    (onUpdate w n pt).1 =
      updC (if pt = some PointKind.skew then updC w n updateSkewCaches else w) n
        (fun c => { c with didChange := true }) ∧
    (onUpdate w n pt).2 =
      (if (w.containers n).isRenderGroupRoot then
        match (w.containers n).renderGroup with
        | some g =>
          (match (w.groups g).renderGroupParent with
           | some pg => [Event.onChildUpdate pg n]
           | none => [])
        | none => []
      else
        match (w.containers n).renderGroup with
        | some g => [Event.onChildUpdate g n]
        | none => []) := by
  simp only [onUpdate]
  rw [if_neg (by rw [ite_updSkew_didChange, h0]; exact Bool.false_ne_true)]
  simp only [updC_dct_root, updC_dct_rg, ite_updSkew_root, ite_updSkew_rg,
    updC_groups, ite_updSkew_groups]
  cases hroot : (w.containers n).isRenderGroupRoot with
  | false =>
    cases hrg : (w.containers n).renderGroup with
    | none => exact ⟨by trivial, by trivial⟩
    | some g => exact ⟨by trivial, by trivial⟩
  | true =>
    cases hrg : (w.containers n).renderGroup with
    | none => exact ⟨by trivial, by trivial⟩
    | some g =>
      cases hpg : (w.groups g).renderGroupParent with
      | none => refine ⟨?_, ?_⟩ <;> simp [hpg]
      | some pg => refine ⟨?_, ?_⟩ <;> simp [hpg]

/-- C4: with the `didChange` latch initially clear and no external clear in
between, calling `onUpdate` twice leaves `didChange` true, the second call
emits nothing, and exactly one upward notification is produced — to the
node's own render group for a non-root member, to the parent group of the
node's group for a render-group root (and none at all for a node outside
any render group). -/
theorem claim_c4_onUpdate_coalesce (w : World) (n : Nat) (pt pt2 : Option PointKind)
    (h0 : (w.containers n).didChange = false) :
    ((onUpdate (onUpdate w n pt).1 n pt2).1.containers n).didChange = true ∧
    (onUpdate (onUpdate w n pt).1 n pt2).2 = [] ∧
    (∀ g, (w.containers n).renderGroup = some g →
      ((w.containers n).isRenderGroupRoot = false →
        (onUpdate w n pt).2 = [Event.onChildUpdate g n]) ∧
      ((w.containers n).isRenderGroupRoot = true →
        ∀ pg, (w.groups g).renderGroupParent = some pg →
          (onUpdate w n pt).2 = [Event.onChildUpdate pg n])) ∧
    ((w.containers n).renderGroup = none → (onUpdate w n pt).2 = []) := by
  obtain ⟨hw1, hev1⟩ := onUpdate_fresh pt h0
  have hd1 : ((onUpdate w n pt).1.containers n).didChange = true := by
    rw [hw1]; exact updC_dct_self _ n
  have h2 := onUpdate_already pt2 hd1
  refine ⟨?_, ?_, ?_, ?_⟩
  · rw [h2]
    simp only [ite_updSkew_didChange]
    exact hd1
  · rw [h2]
  · intro g hrg
    constructor
    · intro hroot
      rw [hev1, hroot, hrg]
      simp
    · intro hroot pg hpg
      rw [hev1, hroot, hrg]
      simp [hpg]
  · intro hrg
    rw [hev1, hrg]
    cases (w.containers n).isRenderGroupRoot <;> simp

/-- World used to witness C4: node 0 is a plain member of render group 0
with a clear latch. -/
def wC4w : World :=
  { containers := fun j =>
      if j = 0 then { Container.mkDefault with renderGroup := some 0 }
      else Container.mkDefault
    groups := fun _ => RenderGroup.mkNew 1
    nextGroupId := 1 }

/-- C4 witness: two `onUpdate` calls at the concrete world produce one
notification and leave the latch set. -/
theorem claim_c4_onUpdate_coalesce_witness :
    (wC4w.containers 0).didChange = false ∧
    ((onUpdate (onUpdate wC4w 0 none).1 0 none).1.containers 0).didChange = true ∧
    (onUpdate (onUpdate wC4w 0 none).1 0 none).2 = [] ∧
    (onUpdate wC4w 0 none).2 = [Event.onChildUpdate 0 0] := by
  have h0 : (wC4w.containers 0).didChange = false := by decide
  have hall := claim_c4_onUpdate_coalesce wC4w 0 none none h0
  exact ⟨h0, hall.1, hall.2.1, (hall.2.2.1 0 (by decide)).1 (by decide)⟩

/-- `Container.visible` getter (source lines 1013–1016): bit 1 of the
packed visibility field. -/
def visibleGet (c : Container) : Bool := (c.localVisibleRenderable &&& 0b10) ≠ 0

/-- `Container.renderable` getter (source lines 1037–1040): bit 0 of the
packed visibility field. -/
def renderableGet (c : Container) : Bool := (c.localVisibleRenderable &&& 0b01) ≠ 0

/-- `Container.isRenderable` getter (source lines 1061–1064): both packed
bits set and combined alpha strictly positive. -/
def isRenderable (c : Container) : Bool :=
  (c.localVisibleRenderable == 0b11) && decide (0 < c.rgAlpha)

/-- `Container.visible` setter (source lines 1018–1034): no-op when bit 1
already matches; otherwise mark the owning group's structural flag (unless
this is a render-group root), set the update-category flag, write bit 1
keeping bit 0, and run `onUpdate`. -/
def setVisible (w : World) (self : Nat) (value : Bool) : World × List Event :=
  let valueNumber : Nat := if value then 1 else 0
  if ((w.containers self).localVisibleRenderable &&& 0b10) >>> 1 = valueNumber then (w, [])
  else
    let w := match (w.containers self).renderGroup with
      | some g =>
          if (w.containers self).isRenderGroupRoot then w
          else updG w g (fun rg => { rg with structureDidChange := true })
      | none => w
    let w := updC w self (fun c =>
      { c with updateFlags := c.updateFlags ||| UPDATE_VISIBLE,
               localVisibleRenderable :=
                 (c.localVisibleRenderable &&& 0b01) ||| (valueNumber <<< 1) })
    onUpdate w self none

/-- `Container.renderable` setter (source lines 1042–1058): no-op when bit
0 already matches; otherwise write bit 0 keeping bit 1, set the
update-category flag, mark the owning group's structural flag (unless this
is a render-group root), and run `onUpdate`.  (The source writes the bit
before the structural-flag check here, the mirror image of the `visible`
setter.) -/
def setRenderable (w : World) (self : Nat) (value : Bool) : World × List Event :=
  let valueNumber : Nat := if value then 1 else 0
  if (w.containers self).localVisibleRenderable &&& 0b01 = valueNumber then (w, [])
  else
    let w := updC w self (fun c =>
      { c with localVisibleRenderable :=
                 (c.localVisibleRenderable &&& 0b10) ||| valueNumber,
               updateFlags := c.updateFlags ||| UPDATE_VISIBLE })
    let w := match (w.containers self).renderGroup with
      | some g =>
          if (w.containers self).isRenderGroupRoot then w
          else updG w g (fun rg => { rg with structureDidChange := true })
      | none => w
    onUpdate w self none

theorem ite_updSkew_lvr (w : World) (n j : Nat) (c : Prop) [Decidable c] :
    (((if c then updC w n updateSkewCaches else w)).containers j).localVisibleRenderable =
      (w.containers j).localVisibleRenderable := by
  split
  · rw [updC_containers]; split <;> rfl
  · rfl

theorem updC_dct_lvr (w : World) (n j : Nat) :
    ((updC w n fun c => { c with didChange := true }).containers j).localVisibleRenderable =
      (w.containers j).localVisibleRenderable := by
  rw [updC_containers]; split <;> rfl

theorem onUpdate_lvr (w : World) (n : Nat) (pt : Option PointKind) (j : Nat) :
    ((onUpdate w n pt).1.containers j).localVisibleRenderable =
      (w.containers j).localVisibleRenderable := by
  have hskew : ∀ (w' : World),
      ((updC w' n updateSkewCaches).containers j).localVisibleRenderable
        = (w'.containers j).localVisibleRenderable := by
    intro w'; rw [updC_containers]; split <;> rfl
  simp only [onUpdate]
  split
  · split
    · exact hskew w
    · rw [updC_dct_lvr, hskew w]
  · split
    · rfl
    · rw [updC_dct_lvr]

theorem structMatch_containers (w : World) (self : Nat) :
    (match (w.containers self).renderGroup with
     | some g =>
         if (w.containers self).isRenderGroupRoot then w
         else updG w g (fun rg => { rg with structureDidChange := true })
     | none => w).containers = w.containers := by
  cases h : (w.containers self).renderGroup with
  | none => rfl
  | some g =>
    by_cases hr : (w.containers self).isRenderGroupRoot = true
    · simp [hr]
    · simp [hr, updG]

theorem bit0_after_write (x : Nat) (v : Bool) :
    ((x &&& 0b01) ||| ((if v then 1 else 0) <<< 1)) &&& 0b01 = x &&& 0b01 := by
  have hy : x &&& 1 ≤ 1 := Nat.and_le_right
  rcases Nat.le_one_iff_eq_zero_or_eq_one.mp hy with h | h <;>
    rw [show (0b01 : Nat) = 1 from rfl, h] <;> cases v <;> decide

/-- Setting `visible` never touches the `renderable` bit (bit 0 of the
packed field). -/
theorem setVisible_bit0 (w : World) (n : Nat) (v : Bool) (j : Nat) :
    (((setVisible w n v).1.containers j).localVisibleRenderable &&& 0b01)
      = ((w.containers j).localVisibleRenderable &&& 0b01) := by
  cases v with
  | false =>
    simp only [setVisible]
    split
    · next h => exact absurd h (by decide)
    · split
      · rfl
      · rw [onUpdate_lvr, updC_containers]
        have hW1 := structMatch_containers w n
        split
        · next hj =>
            subst hj
            rw [congrFun hW1 j]
            exact bit0_after_write _ false
        · rw [congrFun hW1 j]
  | true =>
    simp only [setVisible]
    split
    · split
      · rfl
      · rw [onUpdate_lvr, updC_containers]
        have hW1 := structMatch_containers w n
        split
        · next hj =>
            subst hj
            rw [congrFun hW1 j]
            exact bit0_after_write _ true
        · rw [congrFun hW1 j]
    · next h => exact absurd (by trivial) h

/-- C7: `isRenderable` holds exactly when both packed local visibility
bits are set and the combined render-group alpha is strictly positive; and
setting `visible` to false and back to true leaves the `renderable` bit
with its prior value (the two bits are independent).  The hypothesis that
the packed field is a 2-bit value holds for every container the source can
construct (it is initialized to 0b11 and only ever rewritten one masked
bit at a time). -/
theorem claim_c7_visibility (w : World) (n : Nat)
    (h : (w.containers n).localVisibleRenderable < 4) :
    (isRenderable (w.containers n) = true ↔
      (visibleGet (w.containers n) = true ∧ renderableGet (w.containers n) = true ∧
       0 < (w.containers n).rgAlpha)) ∧
    renderableGet ((setVisible (setVisible w n false).1 n true).1.containers n)
      = renderableGet (w.containers n) := by
  constructor
  · simp only [isRenderable, visibleGet, renderableGet]
    generalize hx : (w.containers n).localVisibleRenderable = x at h
    interval_cases x <;> simp
  · simp only [renderableGet]
    rw [show (0b01 : Nat) = 1 from rfl]
    have h1 := setVisible_bit0 (setVisible w n false).1 n true n
    have h2 := setVisible_bit0 w n false n
    rw [show (0b01 : Nat) = 1 from rfl] at h1 h2
    rw [h1, h2]

/-- World used to witness C7: node 0 at container defaults (both bits set,
alpha 1). -/
def wC7w : World :=
  { containers := fun _ => Container.mkDefault
    groups := fun _ => RenderGroup.mkNew 0
    nextGroupId := 0 }

/-- C7 witness: the theorem applied at the concrete world. -/
theorem claim_c7_visibility_witness :
    (wC7w.containers 0).localVisibleRenderable < 4 ∧
    (isRenderable (wC7w.containers 0) = true ↔
      (visibleGet (wC7w.containers 0) = true ∧ renderableGet (wC7w.containers 0) = true ∧
       0 < (wC7w.containers 0).rgAlpha)) ∧
    renderableGet ((setVisible (setVisible wC7w 0 false).1 0 true).1.containers 0)
      = renderableGet (wC7w.containers 0) :=
  ⟨by decide, (claim_c7_visibility wC7w 0 (by decide)).1,
   (claim_c7_visibility wC7w 0 (by decide)).2⟩

/-- `Container.worldTransform` getter (source lines 763–780): lazily
allocate the backing matrix (`this._worldTransform ||= new Matrix()`),
then — only when the node has a render group — overwrite it: a
render-group root copies its group's world transform verbatim
(`copyFrom`), any other member composes `rgTransform` with the group's
world transform (`appendFrom`, which applies its first argument first).
The getter returns the backing matrix and the world with the backing field
updated. -/
def worldTransformGet (w : World) (self : Nat) : Matrix × World :=
  let c := w.containers self
  let back := c.worldTransformB.getD Matrix.identity
  let back :=
    match c.renderGroup with
    | some g =>
      if c.isRenderGroupRoot then (w.groups g).worldTransform
      else Matrix.appendFrom c.rgTransform (w.groups g).worldTransform
    | none => back
  (back, updC w self (fun c0 => { c0 with worldTransformB := some back }))

/-- C3: for a node inside a render group, reading `worldTransform` yields
the group's world transform exactly (bit-for-bit) when the node is the
group's root — regardless of the node's own `localTransform` and
`rgTransform` — and otherwise yields `rgTransform` composed with the
group's world transform, with `rgTransform` applied first. -/
theorem claim_c3_worldTransform (w : World) (n g : Nat)
    (h : (w.containers n).renderGroup = some g) :
    ((w.containers n).isRenderGroupRoot = true →
      (worldTransformGet w n).1 = (w.groups g).worldTransform ∧
      (∀ lt rt : Matrix,
        (worldTransformGet
          (updC w n fun c => { c with localTransform := lt, rgTransform := rt }) n).1 =
          (w.groups g).worldTransform)) ∧
    ((w.containers n).isRenderGroupRoot = false →
      (worldTransformGet w n).1 =
        Matrix.appendFrom (w.containers n).rgTransform ((w.groups g).worldTransform) ∧
      (∀ p : ℚ × ℚ,
        Matrix.apply (worldTransformGet w n).1 p =
          Matrix.apply ((w.groups g).worldTransform)
            (Matrix.apply ((w.containers n).rgTransform) p))) := by
  constructor
  · intro hroot
    constructor
    · simp only [worldTransformGet, h, hroot]
      simp
    · intro lt rt
      simp only [worldTransformGet, updC_containers, if_pos rfl, updC_groups]
      simp [h, hroot]
  · intro hroot
    have h1 : (worldTransformGet w n).1 =
        Matrix.appendFrom (w.containers n).rgTransform ((w.groups g).worldTransform) := by
      simp only [worldTransformGet, h, hroot]
      simp
    refine ⟨h1, fun p => ?_⟩
    rw [h1, Matrix.apply_appendFrom]

/-- World used to witness C3: node 0 is the root of render group 0 (whose
world transform is a translation by (7, 9)); node 1 is a plain member of
the same group with a non-trivial `rgTransform`. -/
def wC3w : World :=
  { containers := fun j =>
      if j = 0 then
        { Container.mkDefault with
            renderGroup := some 0
            isRenderGroupRoot := true
            localTransform := ⟨2, 0, 0, 2, 1, 1⟩
            rgTransform := ⟨3, 0, 0, 3, 4, 4⟩ }
      else if j = 1 then
        { Container.mkDefault with
            renderGroup := some 0
            rgTransform := ⟨1, 0, 0, 1, 5, 5⟩ }
      else Container.mkDefault
    groups := fun _ =>
      { root := 0
        renderGroupParent := none
        renderGroupChildren := []
        structureDidChange := false
        worldTransform := ⟨1, 0, 0, 1, 7, 9⟩
        proxyRenderable := none }
    nextGroupId := 1 }

/-- C3 witness: the theorem applied at the concrete world, for both the
root and the non-root member. -/
theorem claim_c3_worldTransform_witness :
    (wC3w.containers 0).renderGroup = some 0 ∧
    (worldTransformGet wC3w 0).1 = (wC3w.groups 0).worldTransform ∧
    (wC3w.containers 1).renderGroup = some 0 ∧
    (worldTransformGet wC3w 1).1 =
      Matrix.appendFrom (wC3w.containers 1).rgTransform ((wC3w.groups 0).worldTransform) := by
  refine ⟨by decide, ?_, by decide, ?_⟩
  · exact ((claim_c3_worldTransform wC3w 0 0 (by decide)).1 (by decide)).1
  · exact ((claim_c3_worldTransform wC3w 1 0 (by decide)).2 (by decide)).1

/-- C10: for a node with no render group, reading `worldTransform` never
fails: the backing matrix is allocated lazily, no composition is
performed, the first read returns the identity matrix, any later read
returns the stored matrix unchanged, and the only state change is storing
the backing matrix. -/
theorem claim_c10_worldTransform_no_group (w : World) (n : Nat)
    (h : (w.containers n).renderGroup = none) :
    ((w.containers n).worldTransformB = none →
      (worldTransformGet w n).1 = Matrix.identity) ∧
    (∀ m : Matrix, (w.containers n).worldTransformB = some m →
      (worldTransformGet w n).1 = m) ∧
    (worldTransformGet w n).2 =
      updC w n (fun c0 => { c0 with worldTransformB := some (worldTransformGet w n).1 }) := by
  refine ⟨?_, ?_, ?_⟩
  · intro hb
    simp only [worldTransformGet, h, hb]
    rfl
  · intro m hb
    simp only [worldTransformGet, h, hb]
    rfl
  · simp only [worldTransformGet, h]

/-- World used to witness C10: node 0 has no render group and no backing
matrix yet; node 1 has no render group and a stored backing matrix. -/
def wC10w : World :=
  { containers := fun j =>
      if j = 0 then Container.mkDefault
      else if j = 1 then { Container.mkDefault with worldTransformB := some ⟨1, 0, 0, 1, 3, 4⟩ }
      else Container.mkDefault
    groups := fun _ => RenderGroup.mkNew 0
    nextGroupId := 0 }

/-- C10 witness: first read returns the identity; a stored matrix is
returned unchanged. -/
theorem claim_c10_worldTransform_no_group_witness :
    (wC10w.containers 0).renderGroup = none ∧
    (worldTransformGet wC10w 0).1 = Matrix.identity ∧
    (worldTransformGet wC10w 1).1 = ⟨1, 0, 0, 1, 3, 4⟩ := by
  refine ⟨by decide, ?_, ?_⟩
  · exact (claim_c10_worldTransform_no_group wC10w 0 (by decide)).1 (by decide)
  · exact (claim_c10_worldTransform_no_group wC10w 1 (by decide)).2.1 _ (by decide)

/-- Parent-chain walk of `enableRenderGroup` (source lines 733–744):
starting from a nested group's root, follow parent pointers and report
whether the chain reaches `target`.  `fuel` bounds the walk; it is
immaterial whenever the parent graph is acyclic and the fuel is at least
the chain length (the source would loop forever on a parent cycle). -/
def walkReaches (w : World) : Nat → Option Nat → Nat → Bool
  | _, none, _ => false
  | 0, some _, _ => false
  | fuel + 1, some p, target =>
    if p = target then true else walkReaches w fuel (w.containers p).parent target

/-- Indexed loop of `enableRenderGroup` over the old group's nested child
groups (source lines 730–745): visit position `i` of the list as mutated
so far, re-home the group at `i` when its root's parent chain reaches
`target`, and continue with `i + 1` — exactly the source's `for` loop over
`renderGroupChildren.length`.  The loop fuel is initialized by the caller
to the list length at entry, which bounds the source loop because moves
only ever shrink the list. -/
def enableLoop (walkFuel g target gid : Nat) : Nat → Nat → World → World
  | 0, _, w => w
  | fuel + 1, i, w =>
    let l := (w.groups g).renderGroupChildren
    if h : i < l.length then
      let m := l.get ⟨i, h⟩
      let w2 := if walkReaches w walkFuel (some ((w.groups m).root)) target
                then addRenderGroupChild w gid m else w
      enableLoop walkFuel g target gid fuel (i + 1) w2
    else w

/-- `Container._updateIsSimple` (source lines 754–757): a node is simple
when it is not a render-group root and has no effects. -/
def updIsSimple (w : World) (self : Nat) : World :=
  updC w self (fun c =>
    { c with isSimple := !c.isRenderGroupRoot && ((c.effects.getD []).length == 0) })

/-- `Container.enableRenderGroup` (source lines 711–751): a no-op when the
node already owns a render group whose root is itself; otherwise mark the
node a render-group root, detach it from its previous owning group, create
a fresh group rooted at it, re-home the old group's nested child groups
whose root's parent chain reaches this node, register the new group as a
nested child of the old group, and recompute the is-simple flag. -/
def enableRenderGroup (walkFuel : Nat) (w : World) (self : Nat) : World :=
  let owns : Bool := match (w.containers self).renderGroup with
    | some g => (w.groups g).root == self
    | none => false
  if owns then w
  else
    let parentRG := (w.containers self).renderGroup
    let w := updC w self (fun c => { c with isRenderGroupRoot := true })
    let w := match parentRG with
      | some g => rgRemoveChild w g self
      | none => w
    let gid := w.nextGroupId
    let w := { w with
      groups := fun j => if j = gid then RenderGroup.mkNew self else w.groups j,
      nextGroupId := gid + 1 }
    let w := updC w self (fun c => { c with renderGroup := some gid })
    let w := match parentRG with
      | some g =>
          let w := enableLoop walkFuel g self gid
            ((w.groups g).renderGroupChildren.length) 0 w
          addRenderGroupChild w g gid
      | none => w
    updIsSimple w self

/-- `Container.isRenderGroup` setter (source lines 688–699): demoting an
existing render-group root throws before touching any state (the check is
the first statement); enabling delegates to `enableRenderGroup`; setting
false on a non-root is a no-op.  The thrown error is modelled as
`Except.error` carrying the source's message, returned before any mutation
— the world is only ever produced through `Except.ok`. -/
def setIsRenderGroup (walkFuel : Nat) (w : World) (self : Nat) (value : Bool) :
    Except String World :=
  if (w.containers self).isRenderGroupRoot && !value then
    Except.error "[Pixi] cannot undo a render group just yet"
  else if value then Except.ok (enableRenderGroup walkFuel w self)
  else Except.ok w

/-- C9: attempting to demote a render-group root (setting `isRenderGroup`
to false) fails with the unsupported-operation error, raised by the first
statement of the setter before any mutation — no world state is produced
with the error, so the node (and its render group) are unchanged. -/
theorem claim_c9_demotion_error (walkFuel : Nat) (w : World) (n : Nat)
    (h : (w.containers n).isRenderGroupRoot = true) :
    setIsRenderGroup walkFuel w n false =
      Except.error "[Pixi] cannot undo a render group just yet" := by
  simp [setIsRenderGroup, h]

/-- World used to witness C9: node 0 is the root of render group 0. -/
def wC9w : World :=
  { containers := fun j =>
      if j = 0 then { Container.mkDefault with isRenderGroupRoot := true, renderGroup := some 0 }
      else Container.mkDefault
    groups := fun _ => RenderGroup.mkNew 0
    nextGroupId := 1 }

/-- C9 witness: the theorem applied at the concrete world. -/
theorem claim_c9_demotion_error_witness :
    (wC9w.containers 0).isRenderGroupRoot = true ∧
    setIsRenderGroup 10 wC9w 0 false =
      Except.error "[Pixi] cannot undo a render group just yet" :=
  ⟨by decide, claim_c9_demotion_error 10 wC9w 0 (by decide)⟩

theorem updG_groups (w : World) (i : Nat) (f : RenderGroup → RenderGroup) (j : Nat) :
    (updG w i f).groups j = if j = i then f (w.groups j) else w.groups j := rfl

theorem walkReaches_congr {w w' : World}
    (h : ∀ j, (w.containers j).parent = (w'.containers j).parent) :
    ∀ (f : Nat) (s : Option Nat) (t : Nat), walkReaches w f s t = walkReaches w' f s t := by
  intro f
  induction f with
  | zero => intro s t; cases s <;> rfl
  | succ f ih =>
    intro s t
    cases s with
    | none => rfl
    | some p =>
      simp only [walkReaches]
      rw [h p, ih]

theorem addRenderGroupChild_root (w : World) (a b j : Nat) :
    ((addRenderGroupChild w a b).groups j).root = (w.groups j).root := by
  unfold addRenderGroupChild
  cases (w.groups b).renderGroupParent <;>
    simp only [updG_groups] <;> split_ifs <;> rfl

theorem addRenderGroupChild_nextGroupId (w : World) (a b : Nat) :
    (addRenderGroupChild w a b).nextGroupId = w.nextGroupId := by
  unfold addRenderGroupChild
  cases (w.groups b).renderGroupParent <;> rfl

/-- Effect of `addRenderGroupChild` when the moved group had parent `g0`. -/
theorem addRenderGroupChild_spec (w : World) (a b g0 : Nat)
    (hb : (w.groups b).renderGroupParent = some g0)
    (hba : b ≠ a) (hga : g0 ≠ a) (hgb : g0 ≠ b) :
    ((addRenderGroupChild w a b).groups b).renderGroupParent = some a ∧
    ((addRenderGroupChild w a b).groups b).renderGroupChildren =
      (w.groups b).renderGroupChildren ∧
    ((addRenderGroupChild w a b).groups g0).renderGroupChildren =
      (w.groups g0).renderGroupChildren.erase b ∧
    ((addRenderGroupChild w a b).groups g0).renderGroupParent =
      (w.groups g0).renderGroupParent ∧
    ((addRenderGroupChild w a b).groups a).renderGroupChildren =
      (w.groups a).renderGroupChildren ++ [b] ∧
    ((addRenderGroupChild w a b).groups a).renderGroupParent =
      (w.groups a).renderGroupParent ∧
    (∀ j, j ≠ a → j ≠ b → j ≠ g0 → (addRenderGroupChild w a b).groups j = w.groups j) := by
  unfold addRenderGroupChild
  rw [hb]
  simp only [updG_groups]
  refine ⟨?_, ?_, ?_, ?_, ?_, ?_, ?_⟩
  · simp [hba, hgb.symm]
  · simp [hba, hgb.symm]
  · simp [hga, hgb]
  · simp [hga, hgb]
  · simp [Ne.symm hba, Ne.symm hga]
  · simp [Ne.symm hba, Ne.symm hga]
  · intro j hja hjb hjg
    simp [hja, hjb, hjg]

/-- Effect of `addRenderGroupChild` when the moved group had no parent. -/
theorem addRenderGroupChild_spec_orphan (w : World) (a b : Nat)
    (hb : (w.groups b).renderGroupParent = none) (hba : b ≠ a) :
    ((addRenderGroupChild w a b).groups b).renderGroupParent = some a ∧
    ((addRenderGroupChild w a b).groups b).renderGroupChildren =
      (w.groups b).renderGroupChildren ∧
    ((addRenderGroupChild w a b).groups a).renderGroupChildren =
      (w.groups a).renderGroupChildren ++ [b] ∧
    ((addRenderGroupChild w a b).groups a).renderGroupParent =
      (w.groups a).renderGroupParent ∧
    (∀ j, j ≠ a → j ≠ b → (addRenderGroupChild w a b).groups j = w.groups j) := by
  unfold addRenderGroupChild
  rw [hb]
  simp only [updG_groups]
  refine ⟨?_, ?_, ?_, ?_, ?_⟩
  · simp [hba]
  · simp [hba]
  · simp [Ne.symm hba]
  · simp [Ne.symm hba]
  · intro j hja hjb
    simp [hja, hjb]

theorem enableLoop_skip (walkFuel g target gid : Nat) :
    ∀ (fuel i : Nat) (w : World),
      (∀ x ∈ (w.groups g).renderGroupChildren.drop i,
        walkReaches w walkFuel (some ((w.groups x).root)) target = false) →
      enableLoop walkFuel g target gid fuel i w = w := by
  intro fuel
  induction fuel with
  | zero => intro i w _; rfl
  | succ f ih =>
    intro i w h
    simp only [enableLoop]
    split
    · next hlt =>
      have hdrop := List.drop_eq_getElem_cons hlt
      have hmem : (w.groups g).renderGroupChildren.get ⟨i, hlt⟩ ∈
          (w.groups g).renderGroupChildren.drop i := by
        rw [hdrop]
        exact List.mem_cons_self _ _
      have hfalse := h _ hmem
      rw [List.get_eq_getElem] at hfalse
      rw [if_neg (by simp [hfalse])]
      refine ih (i + 1) w ?_
      intro x hx
      refine h x ?_
      rw [hdrop]
      exact List.mem_cons_of_mem _ hx
    · rfl

theorem enableLoop_move (walkFuel g target gid : Nat) {w : World}
    {l1 l2 : List Nat} {m : Nat}
    (hl : (w.groups g).renderGroupChildren = l1 ++ m :: l2)
    (hqm : walkReaches w walkFuel (some ((w.groups m).root)) target = true)
    (hq : ∀ x ∈ l1 ++ l2, walkReaches w walkFuel (some ((w.groups x).root)) target = false)
    (hmp : (w.groups m).renderGroupParent = some g)
    (hm1 : m ∉ l1) (hmg : m ≠ g) (hmgid : m ≠ gid) (hggid : g ≠ gid) :
    ∀ (k i fuel : Nat), i + k = l1.length → fuel = k + 1 + l2.length →
      enableLoop walkFuel g target gid fuel i w = addRenderGroupChild w gid m := by
  intro k
  induction k with
  | zero =>
    intro i fuel hik hfuel
    have hf2 : fuel = l2.length + 1 := by omega
    subst hf2
    have hi : i = l1.length := by omega
    subst hi
    simp only [enableLoop]
    have hlen : l1.length < (w.groups g).renderGroupChildren.length := by
      rw [hl]
      simp only [List.length_append, List.length_cons]
      omega
    rw [dif_pos hlen]
    have helem : (w.groups g).renderGroupChildren.get ⟨l1.length, hlen⟩ = m := by
      rw [List.get_of_eq hl ⟨l1.length, hlen⟩]
      simp [List.getElem_append_right (Nat.le_refl l1.length)]
    rw [helem, if_pos hqm]
    obtain ⟨hpb, hcb, hcg, hpg2, hca, hpa, hrest⟩ :=
      addRenderGroupChild_spec w gid m g hmp hmgid hggid (Ne.symm hmg)
    refine enableLoop_skip walkFuel g target gid _ _ _ ?_
    intro x hx
    have hx2 : x ∈ ((addRenderGroupChild w gid m).groups g).renderGroupChildren :=
      List.mem_of_mem_drop hx
    rw [hcg, hl] at hx2
    have hx3 : x ∈ l1 ++ l2 := by
      rw [List.erase_append_right _ hm1, List.erase_cons_head] at hx2
      exact hx2
    have hcongr : ∀ f s t,
        walkReaches (addRenderGroupChild w gid m) f s t = walkReaches w f s t :=
      walkReaches_congr
        (fun j => by rw [congrFun (addRenderGroupChild_containers w gid m) j])
    rw [addRenderGroupChild_root, hcongr]
    exact hq x hx3
  | succ k ih =>
    intro i fuel hik hfuel
    have hf2 : fuel = (k + 1 + l2.length) + 1 := by omega
    subst hf2
    have hi : i < l1.length := by omega
    simp only [enableLoop]
    have hlen : i < (w.groups g).renderGroupChildren.length := by
      rw [hl]
      simp only [List.length_append, List.length_cons]
      omega
    rw [dif_pos hlen]
    have helem : (w.groups g).renderGroupChildren.get ⟨i, hlen⟩ = l1.get ⟨i, hi⟩ := by
      rw [List.get_of_eq hl ⟨i, hlen⟩]
      simp [List.getElem_append_left hi]
    have hmem : l1.get ⟨i, hi⟩ ∈ l1 ++ l2 :=
      List.mem_append_left l2 (List.get_mem l1 i hi)
    have hfalse := hq _ hmem
    rw [List.get_eq_getElem] at hfalse
    rw [helem, if_neg (by simp [hfalse])]
    exact ih (i + 1) _ (by omega) rfl

/-- The state of `enableRenderGroup` just before its re-homing loop, for a
node whose previous owning group is `g`: root flag set, detached from `g`,
fresh group allocated and installed. -/
def enablePre (w : World) (n g : Nat) : World :=
  let w1 := updC w n (fun c => { c with isRenderGroupRoot := true })
  let w2 := rgRemoveChild w1 g n
  let gid := w2.nextGroupId
  let w3 := { w2 with
    groups := fun j => if j = gid then RenderGroup.mkNew n else w2.groups j,
    nextGroupId := gid + 1 }
  updC w3 n (fun c => { c with renderGroup := some gid })

theorem enableRenderGroup_eq (walkFuel : Nat) (w : World) (n g : Nat)
    (hg : (w.containers n).renderGroup = some g)
    (hroot : (w.groups g).root ≠ n) :
    enableRenderGroup walkFuel w n =
      updIsSimple (addRenderGroupChild
        (enableLoop walkFuel g n w.nextGroupId
          (((enablePre w n g).groups g).renderGroupChildren.length) 0 (enablePre w n g))
        g w.nextGroupId) n := by
  simp only [enableRenderGroup, enablePre, hg]
  rw [if_neg (by simp [hroot])]
  rfl

theorem enablePre_groups (w : World) (n g j : Nat) :
    (enablePre w n g).groups j =
      if j = w.nextGroupId then RenderGroup.mkNew n
      else if j = g then { w.groups g with structureDidChange := true }
      else w.groups j := by
  have h1 : (enablePre w n g).groups j =
      if j = w.nextGroupId then RenderGroup.mkNew n
      else (rgRemoveChild (updC w n fun c =>
        { c with isRenderGroupRoot := true }) g n).groups j := rfl
  have h2 : (rgRemoveChild (updC w n fun c =>
      { c with isRenderGroupRoot := true }) g n).groups j =
      if j = g then { w.groups g with structureDidChange := true } else w.groups j := by
    simp only [rgRemoveChild, updC_groups, updG_groups]
    split
    · next h3 => subst h3; rfl
    · rfl
  rw [h1, h2]

theorem enablePre_parent (w : World) (n g j : Nat) :
    ((enablePre w n g).containers j).parent = (w.containers j).parent := by
  simp only [enablePre]
  rw [updC_containers]
  have hmid : ∀ j2, (({ rgRemoveChild (updC w n fun c =>
      { c with isRenderGroupRoot := true }) g n with
        groups := fun j3 => if j3 = (rgRemoveChild (updC w n fun c =>
          { c with isRenderGroupRoot := true }) g n).nextGroupId
          then RenderGroup.mkNew n
          else (rgRemoveChild (updC w n fun c =>
            { c with isRenderGroupRoot := true }) g n).groups j3,
        nextGroupId := (rgRemoveChild (updC w n fun c =>
          { c with isRenderGroupRoot := true }) g n).nextGroupId + 1
      } : World).containers j2).parent = (w.containers j2).parent := by
    intro j2
    show ((rgRemoveChild (updC w n fun c =>
      { c with isRenderGroupRoot := true }) g n).containers j2).parent = _
    rw [rgRemoveChild_parent, updC_containers]
    split
    · next h2 => subst h2; rfl
    · rfl
  split
  · next h2 => subst h2; exact hmid j
  · exact hmid j

theorem enablePre_rg_self (w : World) (n g : Nat) :
    ((enablePre w n g).containers n).renderGroup = some w.nextGroupId := by
  simp only [enablePre]
  rw [updC_containers, if_pos rfl]
  rfl

theorem enablePre_nextGroupId (w : World) (n g : Nat) :
    (enablePre w n g).nextGroupId = w.nextGroupId + 1 := rfl

theorem updIsSimple_groups (w : World) (n : Nat) :
    (updIsSimple w n).groups = w.groups := rfl

theorem updIsSimple_rg (w : World) (n j : Nat) :
    ((updIsSimple w n).containers j).renderGroup = (w.containers j).renderGroup := by
  rw [updIsSimple, updC_containers]
  split
  · next h2 => subst h2; rfl
  · rfl

/-- World used as the concrete input refuting C6: node 3 is the root of
render group 0 (`G`); node 0 (`N`) is a member of `G` with two children,
nodes 1 and 2, each the root of its own nested render group (groups 1 and
2, both nested children of `G`). -/
def wC6ce : World :=
  { containers := fun j =>
      if j = 0 then
        { Container.mkDefault with
            parent := some 3
            children := [1, 2]
            renderGroup := some 0 }
      else if j = 1 then
        { Container.mkDefault with
            parent := some 0
            isRenderGroupRoot := true
            renderGroup := some 1 }
      else if j = 2 then
        { Container.mkDefault with
            parent := some 0
            isRenderGroupRoot := true
            renderGroup := some 2 }
      else if j = 3 then
        { Container.mkDefault with
            children := [0]
            isRenderGroupRoot := true
            renderGroup := some 0 }
      else Container.mkDefault
    groups := fun j =>
      if j = 0 then
        { root := 3
          renderGroupParent := none
          renderGroupChildren := [1, 2]
          structureDidChange := false
          worldTransform := Matrix.identity
          proxyRenderable := none }
      else if j = 1 then
        { root := 1
          renderGroupParent := some 0
          renderGroupChildren := []
          structureDidChange := false
          worldTransform := Matrix.identity
          proxyRenderable := none }
      else if j = 2 then
        { root := 2
          renderGroupParent := some 0
          renderGroupChildren := []
          structureDidChange := false
          worldTransform := Matrix.identity
          proxyRenderable := none }
      else RenderGroup.mkNew 0
    nextGroupId := 3 }

/-- C6, counterexample: both nested groups 1 and 2 have roots that are
strict descendants of node 0 (their roots' parent chains reach node 0),
yet after `enableRenderGroup` on node 0 only group 1 was re-homed into the
new group 3: group 2 is still a nested child of the old group 0, because
the source's `for` loop indexes `renderGroupChildren` while
`addRenderGroupChild` removes moved entries from that same array, skipping
the element after each move. -/
theorem claim_c6_counterexample :
    (wC6ce.groups 0).renderGroupChildren = [1, 2] ∧
    (wC6ce.containers 0).renderGroup = some 0 ∧
    (wC6ce.groups 0).root ≠ 0 ∧
    (wC6ce.groups 1).renderGroupParent = some 0 ∧
    (wC6ce.groups 2).renderGroupParent = some 0 ∧
    (wC6ce.groups 1).root ≠ 0 ∧ (wC6ce.groups 2).root ≠ 0 ∧
    walkReaches wC6ce 10 (some ((wC6ce.groups 1).root)) 0 = true ∧
    walkReaches wC6ce 10 (some ((wC6ce.groups 2).root)) 0 = true ∧
    ((enableRenderGroup 10 wC6ce 0).containers 0).renderGroup = some 3 ∧
    ((enableRenderGroup 10 wC6ce 0).groups 1).renderGroupParent = some 3 ∧
    ((enableRenderGroup 10 wC6ce 0).groups 2).renderGroupParent = some 0 ∧
    2 ∉ ((enableRenderGroup 10 wC6ce 0).groups 3).renderGroupChildren ∧
    2 ∈ ((enableRenderGroup 10 wC6ce 0).groups 0).renderGroupChildren := by
  decide

/-- C6 (amended): when `N`'s previous owning group `G` has exactly one
nested child group `M` whose root's parent chain reaches `N` (the other
nested children's chains do not), `enableRenderGroup(N)` re-homes `M` into
`N`'s newly created group — `M` becomes the sole nested child of the new
group and the new group is registered as a nested child of `G` — and
enabling is a no-op on a node that already owns a group rooted at itself.
(As the counterexample shows, with two or more qualifying nested groups
the index-based loop skips the entry following each move, so the claim
must be restricted to a single qualifying nested group.) -/
theorem claim_c6_enable_render_group (walkFuel : Nat) (w : World) (n g m : Nat)
    (l1 l2 : List Nat)
    (hg : (w.containers n).renderGroup = some g)
    (hroot : (w.groups g).root ≠ n)
    (hl : (w.groups g).renderGroupChildren = l1 ++ m :: l2)
    (hqm : walkReaches w walkFuel (some ((w.groups m).root)) n = true)
    (hq : ∀ x ∈ l1 ++ l2, walkReaches w walkFuel (some ((w.groups x).root)) n = false)
    (hmp : (w.groups m).renderGroupParent = some g)
    (hm1 : m ∉ l1)
    (hmg : m ≠ g)
    (hglt : g < w.nextGroupId) (hmlt : m < w.nextGroupId)
    (hxlt : ∀ x ∈ l1 ++ l2, x < w.nextGroupId) :
    (((enableRenderGroup walkFuel w n).groups m).renderGroupParent = some w.nextGroupId ∧
     ((enableRenderGroup walkFuel w n).groups w.nextGroupId).renderGroupChildren = [m] ∧
     ((enableRenderGroup walkFuel w n).groups w.nextGroupId).renderGroupParent = some g ∧
     w.nextGroupId ∈ ((enableRenderGroup walkFuel w n).groups g).renderGroupChildren ∧
     ((enableRenderGroup walkFuel w n).containers n).renderGroup = some w.nextGroupId ∧
     ((enableRenderGroup walkFuel w n).groups w.nextGroupId).root = n) ∧
    (∀ (w2 : World) (n2 g2 : Nat), (w2.containers n2).renderGroup = some g2 →
      (w2.groups g2).root = n2 → enableRenderGroup walkFuel w2 n2 = w2) := by
  constructor
  · have hmgid : m ≠ w.nextGroupId := Nat.ne_of_lt hmlt
    have hggid : g ≠ w.nextGroupId := Nat.ne_of_lt hglt
    rw [enableRenderGroup_eq walkFuel w n g hg hroot]
    have hPg := fun j => enablePre_groups w n g j
    have hlP : ((enablePre w n g).groups g).renderGroupChildren = l1 ++ m :: l2 := by
      rw [hPg g, if_neg hggid, if_pos rfl]
      exact hl
    have hrootP : ∀ x, x ≠ w.nextGroupId →
        ((enablePre w n g).groups x).root = (w.groups x).root := by
      intro x hx
      rw [hPg x, if_neg hx]
      split
      · next h2 => subst h2; rfl
      · rfl
    have hcongrP : ∀ f s t, walkReaches (enablePre w n g) f s t = walkReaches w f s t :=
      walkReaches_congr (fun j => enablePre_parent w n g j)
    have hqmP : walkReaches (enablePre w n g) walkFuel
        (some (((enablePre w n g).groups m).root)) n = true := by
      rw [hrootP m hmgid, hcongrP]
      exact hqm
    have hqP : ∀ x ∈ l1 ++ l2, walkReaches (enablePre w n g) walkFuel
        (some (((enablePre w n g).groups x).root)) n = false := by
      intro x hx
      rw [hrootP x (Nat.ne_of_lt (hxlt x hx)), hcongrP]
      exact hq x hx
    have hmpP : ((enablePre w n g).groups m).renderGroupParent = some g := by
      rw [hPg m, if_neg hmgid, if_neg hmg]
      exact hmp
    have hfuel : ((enablePre w n g).groups g).renderGroupChildren.length =
        l1.length + 1 + l2.length := by
      rw [hlP]
      simp only [List.length_append, List.length_cons]
      omega
    have hloop := enableLoop_move walkFuel g n w.nextGroupId hlP hqmP hqP hmpP hm1
      hmg hmgid hggid l1.length 0 _ (by omega) hfuel
    rw [hloop]
    obtain ⟨hQmp, hQmc, hQgc, hQgp, hQac, hQap, hQrest⟩ :=
      addRenderGroupChild_spec (enablePre w n g) w.nextGroupId m g hmpP hmgid hggid
        (Ne.symm hmg)
    have hQgidp : ((addRenderGroupChild (enablePre w n g) w.nextGroupId m).groups
        w.nextGroupId).renderGroupParent = none := by
      rw [hQap, hPg w.nextGroupId, if_pos rfl]
      rfl
    obtain ⟨hRgidp, hRgidc, hRgc, hRgp, hRrest⟩ :=
      addRenderGroupChild_spec_orphan (addRenderGroupChild (enablePre w n g) w.nextGroupId m)
        g w.nextGroupId hQgidp (Ne.symm hggid)
    refine ⟨?_, ?_, ?_, ?_, ?_, ?_⟩
    · rw [congrFun (updIsSimple_groups _ n) m, hRrest m hmg hmgid, hQmp]
    · rw [congrFun (updIsSimple_groups _ n) w.nextGroupId, hRgidc, hQac,
        hPg w.nextGroupId, if_pos rfl]
      rfl
    · rw [congrFun (updIsSimple_groups _ n) w.nextGroupId, hRgidp]
    · rw [congrFun (updIsSimple_groups _ n) g, hRgc]
      exact List.mem_append_right _ (List.mem_singleton_self _)
    · rw [updIsSimple_rg,
        congrFun (addRenderGroupChild_containers _ g w.nextGroupId) n,
        congrFun (addRenderGroupChild_containers _ w.nextGroupId m) n,
        enablePre_rg_self]
    · rw [congrFun (updIsSimple_groups _ n) w.nextGroupId, addRenderGroupChild_root,
        addRenderGroupChild_root, hPg w.nextGroupId, if_pos rfl]
      rfl
  · intro w2 n2 g2 hg2 hr2
    simp only [enableRenderGroup, hg2]
    rw [if_pos (by simp [hr2])]

/-- World used to witness C6: like the counterexample world but with a
single nested render group (group 1, rooted at node 1, a child of node 0)
inside the owning group 0 rooted at node 3. -/
def wC6w : World :=
  { containers := fun j =>
      if j = 0 then
        { Container.mkDefault with
            parent := some 3
            children := [1]
            renderGroup := some 0 }
      else if j = 1 then
        { Container.mkDefault with
            parent := some 0
            isRenderGroupRoot := true
            renderGroup := some 1 }
      else if j = 3 then
        { Container.mkDefault with
            children := [0]
            isRenderGroupRoot := true
            renderGroup := some 0 }
      else Container.mkDefault
    groups := fun j =>
      if j = 0 then
        { root := 3
          renderGroupParent := none
          renderGroupChildren := [1]
          structureDidChange := false
          worldTransform := Matrix.identity
          proxyRenderable := none }
      else if j = 1 then
        { root := 1
          renderGroupParent := some 0
          renderGroupChildren := []
          structureDidChange := false
          worldTransform := Matrix.identity
          proxyRenderable := none }
      else RenderGroup.mkNew 0
    nextGroupId := 3 }

/-- C6 witness: the amended theorem applied at the concrete world — group
1 is re-homed into the newly created group 3, which becomes a nested child
of group 0. -/
theorem claim_c6_enable_render_group_witness :
    (wC6w.containers 0).renderGroup = some 0 ∧
    ((enableRenderGroup 10 wC6w 0).groups 1).renderGroupParent = some 3 ∧
    ((enableRenderGroup 10 wC6w 0).groups 3).renderGroupChildren = [1] ∧
    ((enableRenderGroup 10 wC6w 0).groups 3).renderGroupParent = some 0 ∧
    3 ∈ ((enableRenderGroup 10 wC6w 0).groups 0).renderGroupChildren := by
  have hall := claim_c6_enable_render_group 10 wC6w 0 0 1 [] []
    (by decide) (by decide) (by decide) (by decide) (by decide) (by decide)
    (by decide) (by decide) (by decide) (by decide) (by decide)
  exact ⟨by decide, hall.1.1, hall.1.2.1, hall.1.2.2.1, hall.1.2.2.2.1⟩

/-- Modelled from the spec: `removeFromParent` (childrenHelperMixin, not
in the provided source): `this.parent?.removeChild(this)`. -/
def removeFromParent (w : World) (self : Nat) : World × List Event :=
  match (w.containers self).parent with
  | some p => removeChild w p self
  | none => (w, [])

/-- Modelled from the spec: `removeChildren(0, children.length)`
(childrenHelperMixin, not in the provided source): "removes all children
from this node first (detaching them from the tree)" — splices out the
whole list, detaches each removed child from this node's render group,
nulls each removed child's parent pointer, and emits the structural
notifications (whose index payload is not modelled); returns the removed
children. -/
def removeAllChildrenOp (w : World) (self : Nat) : World × List Nat × List Event :=
  let removed := (w.containers self).children
  let w := updC w self (fun c => { c with children := [] })
  let w := removed.foldl (fun wacc ch =>
      let wacc := match (wacc.containers self).renderGroup with
        | some g => rgRemoveChild wacc g ch
        | none => wacc
      updC wacc ch (fun c => { c with parent := none })) w
  (w, removed,
    removed.map (fun ch => Event.childRemoved ch self 0) ++
      removed.map (fun ch => Event.removed ch self))

/-- The straight-line body of `Container.destroy` before the recursion
over children (source lines 1090–1108): set the `destroyed` flag, sever
the parent link, null the transform observables, mask, filters and
effects, clear the render group's proxy renderable when this node is a
root, and remove all children.  Returns the resulting world, the removal
events of the parent unlink, the removed children and the removal events
of the children sweep. -/
def destroyPre (w : World) (self : Nat) : World × List Event × List Nat × List Event :=
  let w := updC w self (fun c => { c with destroyed := true })
  let r1 := removeFromParent w self
  let w := r1.1
  let w := updC w self (fun c =>
    { c with parent := none, mask := none, filters := none, effects := none,
             position := none, scale := none, pivot := none, skew := none })
  let w := if (w.containers self).isRenderGroupRoot then
      match (w.containers self).renderGroup with
      | some g => updG w g (fun rg => { rg with proxyRenderable := none })
      | none => w
    else w
  let r2 := removeAllChildrenOp w self
  (r2.1, r1.2, r2.2.1, r2.2.2)

mutual
/-- `Container.destroy` (source lines 1080–1121): guarded by the
`destroyed` flag (idempotent); runs the straight-line teardown
(`destroyPre`), emits `destroyed`, and — when the children option is set —
recursively destroys the removed children.  The structured option set is
modelled by its boolean children flag, the only part the core recursion
reads; listener removal and the view teardown touch no modelled state.
`fuel` bounds the recursion depth (the source recursion is bounded by the
tree height); at fuel 0 the model leaves the world unchanged. -/
def destroy : Nat → World → Nat → Bool → World × List Event
  | 0, w, _, _ => (w, [])
  | fuel + 1, w, self, destroyChildren =>
    if (w.containers self).destroyed then (w, [])
    else
      let p := destroyPre w self
      let r3 := if destroyChildren then destroyList fuel p.1 p.2.2.1 destroyChildren
        else (p.1, [])
      (r3.1, p.2.1 ++ [Event.destroyedEv self] ++ p.2.2.2 ++ r3.2)
termination_by fuel _ _ _ => (fuel, 0)

/-- The recursive loop of `destroy` over the removed children
(source lines 1108–1114). -/
def destroyList : Nat → World → List Nat → Bool → World × List Event
  | _, w, [], _ => (w, [])
  | fuel, w, c :: cs, opts =>
    let r1 := destroy fuel w c opts
    let r2 := destroyList fuel r1.1 cs opts
    (r2.1, r1.2 ++ r2.2)
termination_by fuel _ l _ => (fuel, l.length + 1)
end

theorem rgRemoveChild_destroyed (w : World) (g ch j : Nat) :
    ((rgRemoveChild w g ch).containers j).destroyed = (w.containers j).destroyed := by
  simp only [rgRemoveChild, updC_containers, updG_containers]
  split <;> rfl

/-- Monotone facts preserved by every step of the destroy pipeline: a set
`destroyed` flag, a null parent pointer and an empty children list are
never undone. -/
def Dmono (w w2 : World) : Prop :=
  ∀ j, ((w.containers j).destroyed = true → (w2.containers j).destroyed = true) ∧
       ((w.containers j).parent = none → (w2.containers j).parent = none) ∧
       ((w.containers j).children = [] → (w2.containers j).children = [])

theorem Dmono_refl (w : World) : Dmono w w := fun _ => ⟨id, id, id⟩

theorem Dmono_trans {w1 w2 w3 : World} (h1 : Dmono w1 w2) (h2 : Dmono w2 w3) :
    Dmono w1 w3 := fun j =>
  ⟨fun h => (h2 j).1 ((h1 j).1 h), fun h => (h2 j).2.1 ((h1 j).2.1 h),
   fun h => (h2 j).2.2 ((h1 j).2.2 h)⟩

theorem Dmono_of_containers_eq {w w2 : World} (h : w2.containers = w.containers) :
    Dmono w w2 := fun j => by rw [h]; exact ⟨id, id, id⟩

theorem Dmono_updC (w : World) (i : Nat) (f : Container → Container)
    (h1 : ∀ c, c.destroyed = true → (f c).destroyed = true)
    (h2 : ∀ c, c.parent = none → (f c).parent = none)
    (h3 : ∀ c, c.children = [] → (f c).children = []) :
    Dmono w (updC w i f) := by
  intro j
  rw [updC_containers]
  split
  · exact ⟨h1 _, h2 _, h3 _⟩
  · exact ⟨id, id, id⟩

theorem Dmono_rgRemoveChild (w : World) (g c : Nat) : Dmono w (rgRemoveChild w g c) := by
  intro j
  rw [rgRemoveChild_children, rgRemoveChild_parent, rgRemoveChild_destroyed]
  exact ⟨id, id, id⟩

theorem jsSplice1_nil (i : Int) : jsSplice1 [] i = [] := by
  simp [jsSplice1]

theorem removeChild_destroyed (w : World) (p c j : Nat) :
    ((removeChild w p c).1.containers j).destroyed = (w.containers j).destroyed := by
  simp only [removeChild]
  split
  · simp only [updC_containers, if_pos rfl]
    cases hrg : (w.containers p).renderGroup with
    | none =>
      rcases eq_or_ne j c with rfl | hjc <;> rcases eq_or_ne j p with rfl | hjp <;>
        simp_all [updC_containers]
    | some g =>
      rcases eq_or_ne j c with rfl | hjc <;> rcases eq_or_ne j p with rfl | hjp <;>
        simp_all [updC_containers, rgRemoveChild_destroyed]
  · rw [updC_containers]
    split
    · next h => subst h; rfl
    · rfl

theorem removeChild_parent (w : World) (p c j : Nat) :
    ((removeChild w p c).1.containers j).parent =
      if j = c then none else (w.containers j).parent := by
  by_cases hm : c ∈ (w.containers p).children
  · exact (removeChild_state_of_mem hm j).2
  · rw [removeChild_of_not_mem hm]
    exact updC_parent_none_parent w c j

theorem Dmono_removeChild (w : World) (p c : Nat) : Dmono w (removeChild w p c).1 := by
  intro j
  refine ⟨?_, ?_, ?_⟩
  · rw [removeChild_destroyed]; exact id
  · intro h
    rw [removeChild_parent]
    split
    · rfl
    · exact h
  · intro h
    by_cases hm : c ∈ (w.containers p).children
    · rw [(removeChild_state_of_mem hm j).1]
      split
      · next h2 =>
          subst h2
          rw [h] at hm
          cases hm
      · exact h
    · rw [removeChild_of_not_mem hm, updC_parent_none_children]
      exact h

theorem Dmono_removeFromParent (w : World) (self : Nat) :
    Dmono w (removeFromParent w self).1 := by
  simp only [removeFromParent]
  cases (w.containers self).parent with
  | none => exact Dmono_refl w
  | some p => exact Dmono_removeChild w p self

theorem Dmono_removeAllStep (self : Nat) (w1 : World) (x : Nat) :
    Dmono w1 (updC (match (w1.containers self).renderGroup with
      | some g => rgRemoveChild w1 g x
      | none => w1) x (fun c => { c with parent := none })) := by
  refine @Dmono_trans w1 (match (w1.containers self).renderGroup with
      | some g => rgRemoveChild w1 g x
      | none => w1) _ ?_ ?_
  · cases (w1.containers self).renderGroup with
    | none => exact Dmono_refl w1
    | some g => exact Dmono_rgRemoveChild w1 g x
  · exact Dmono_updC _ x _ (fun _ h => h) (fun _ _ => rfl) (fun _ h => h)

theorem Dmono_removeAllFold (self : Nat) :
    ∀ (l : List Nat) (w1 : World),
      Dmono w1 (l.foldl (fun wacc ch =>
        updC (match (wacc.containers self).renderGroup with
          | some g => rgRemoveChild wacc g ch
          | none => wacc) ch (fun c => { c with parent := none })) w1) := by
  intro l
  induction l with
  | nil => intro w1; exact Dmono_refl w1
  | cons x xs ih =>
    intro w1
    simp only [List.foldl_cons]
    exact Dmono_trans (Dmono_removeAllStep self w1 x) (ih _)

theorem Dmono_removeAllChildrenOp (w : World) (self : Nat) :
    Dmono w (removeAllChildrenOp w self).1 := by
  simp only [removeAllChildrenOp]
  exact Dmono_trans
    (Dmono_updC w self (fun c => { c with children := [] })
      (fun _ h => h) (fun _ h => h) (fun _ _ => rfl))
    (Dmono_removeAllFold self (w.containers self).children
      (updC w self (fun c => { c with children := [] })))

theorem Dmono_rootStep (w : World) (self : Nat) :
    Dmono w (if (w.containers self).isRenderGroupRoot then
        match (w.containers self).renderGroup with
        | some g => updG w g (fun rg => { rg with proxyRenderable := none })
        | none => w
      else w) := by
  refine Dmono_of_containers_eq ?_
  split
  · cases (w.containers self).renderGroup
    · rfl
    · rfl
  · rfl

theorem Dmono_destroyPre (w : World) (self : Nat) : Dmono w (destroyPre w self).1 := by
  simp only [destroyPre]
  refine Dmono_trans (Dmono_updC w self (fun c => { c with destroyed := true })
      (fun _ _ => rfl) (fun _ h => h) (fun _ h => h)) ?_
  refine Dmono_trans (Dmono_removeFromParent _ self) ?_
  refine Dmono_trans (Dmono_updC _ self (fun c =>
    { c with parent := none, mask := none, filters := none, effects := none,
             position := none, scale := none, pivot := none, skew := none })
      (fun _ h => h) (fun _ _ => rfl) (fun _ h => h)) ?_
  refine Dmono_trans (Dmono_rootStep _ self) ?_
  exact Dmono_removeAllChildrenOp _ self

theorem destroy_mono : ∀ (fuel : Nat),
    (∀ w self d, Dmono w (destroy fuel w self d).1) ∧
    (∀ w l d, Dmono w (destroyList fuel w l d).1) := by
  intro fuel
  induction fuel with
  | zero =>
    have hd : ∀ (w : World) (self : Nat) (d : Bool), Dmono w (destroy 0 w self d).1 := by
      intro w self d
      simp only [destroy]
      exact Dmono_refl w
    refine ⟨hd, ?_⟩
    intro w l d
    induction l generalizing w with
    | nil => simp only [destroyList]; exact Dmono_refl w
    | cons x xs ihl =>
      simp only [destroyList]
      exact Dmono_trans (hd w x d) (ihl _)
  | succ fuel ih =>
    have hd : ∀ (w : World) (self : Nat) (d : Bool),
        Dmono w (destroy (fuel + 1) w self d).1 := by
      intro w self d
      simp only [destroy]
      split
      · exact Dmono_refl w
      · refine Dmono_trans (Dmono_destroyPre w self) ?_
        cases d with
        | false =>
          rw [if_neg Bool.false_ne_true]
          exact Dmono_refl _
        | true =>
          rw [if_pos rfl]
          exact ih.2 _ _ _
    refine ⟨hd, ?_⟩
    intro w l d
    induction l generalizing w with
    | nil => simp only [destroyList]; exact Dmono_refl w
    | cons x xs ihl =>
      simp only [destroyList]
      exact Dmono_trans (hd w x d) (ihl _)

theorem rootStep_containers (w : World) (self : Nat) :
    ((if (w.containers self).isRenderGroupRoot then
        match (w.containers self).renderGroup with
        | some g => updG w g (fun rg => { rg with proxyRenderable := none })
        | none => w
      else w).containers) = w.containers := by
  split
  · cases (w.containers self).renderGroup
    · rfl
    · rfl
  · rfl

theorem removeChild_children_of_ne (w : World) (p c j : Nat) (h : j ≠ p) :
    ((removeChild w p c).1.containers j).children = (w.containers j).children := by
  by_cases hm : c ∈ (w.containers p).children
  · rw [(removeChild_state_of_mem hm j).1, if_neg h]
  · rw [removeChild_of_not_mem hm]
    exact updC_parent_none_children w c j

theorem removeFromParent_destroyed (w : World) (self j : Nat) :
    ((removeFromParent w self).1.containers j).destroyed = (w.containers j).destroyed := by
  simp only [removeFromParent]
  cases (w.containers self).parent with
  | none => rfl
  | some p => exact removeChild_destroyed w p self j

theorem removeFromParent_children_self (w : World) (self : Nat)
    (h : (w.containers self).parent ≠ some self) :
    ((removeFromParent w self).1.containers self).children =
      (w.containers self).children := by
  simp only [removeFromParent]
  cases hp : (w.containers self).parent with
  | none => rfl
  | some p =>
    have hps : self ≠ p := by
      rintro rfl
      exact h hp
    exact removeChild_children_of_ne w p self self hps

theorem updC_keepD (w : World) (i : Nat) (f : Container → Container) (j : Nat)
    (hf : ∀ c, (f c).destroyed = c.destroyed) :
    ((updC w i f).containers j).destroyed = (w.containers j).destroyed := by
  rw [updC_containers]
  split
  · exact hf _
  · rfl

theorem updC_keepC (w : World) (i : Nat) (f : Container → Container) (j : Nat)
    (hf : ∀ c, (f c).children = c.children) :
    ((updC w i f).containers j).children = (w.containers j).children := by
  rw [updC_containers]
  split
  · exact hf _
  · rfl

theorem removeAllStep_destroyed (self : Nat) (w1 : World) (x j : Nat) :
    (((updC (match (w1.containers self).renderGroup with
      | some g => rgRemoveChild w1 g x
      | none => w1) x (fun c => { c with parent := none })).containers j).destroyed)
    = (w1.containers j).destroyed := by
  rw [updC_containers]
  split
  · cases (w1.containers self).renderGroup with
    | none => rfl
    | some g => exact rgRemoveChild_destroyed w1 g x j
  · cases (w1.containers self).renderGroup with
    | none => rfl
    | some g => exact rgRemoveChild_destroyed w1 g x j

theorem removeAllFold_destroyed (self : Nat) :
    ∀ (l : List Nat) (w1 : World) (j : Nat),
      (((l.foldl (fun wacc ch =>
        updC (match (wacc.containers self).renderGroup with
          | some g => rgRemoveChild wacc g ch
          | none => wacc) ch (fun c => { c with parent := none })) w1).containers j).destroyed)
      = (w1.containers j).destroyed := by
  intro l
  induction l with
  | nil => intro w1 j; rfl
  | cons x xs ih =>
    intro w1 j
    simp only [List.foldl_cons]
    rw [ih, removeAllStep_destroyed]

theorem removeAllChildrenOp_destroyed (w : World) (self j : Nat) :
    (((removeAllChildrenOp w self).1.containers j)).destroyed =
      (w.containers j).destroyed := by
  simp only [removeAllChildrenOp]
  rw [removeAllFold_destroyed self (w.containers self).children
    (updC w self fun c => { c with children := [] }) j]
  rw [updC_containers]
  split
  · rfl
  · rfl

theorem removeAllChildrenOp_children_self (w : World) (self : Nat) :
    ((removeAllChildrenOp w self).1.containers self).children = [] := by
  simp only [removeAllChildrenOp]
  have h0 : ((updC w self fun c => { c with children := [] }).containers self).children
      = [] := by
    rw [updC_containers, if_pos rfl]
  exact ((Dmono_removeAllFold self (w.containers self).children _) self).2.2 h0

theorem removeAllChildrenOp_removed (w : World) (self : Nat) :
    (removeAllChildrenOp w self).2.1 = (w.containers self).children := rfl

theorem destroyPre_destroyed_self (w : World) (self : Nat) :
    ((destroyPre w self).1.containers self).destroyed = true := by
  simp only [destroyPre]
  rw [removeAllChildrenOp_destroyed, rootStep_containers,
      updC_keepD _ _ (fun c =>
        { c with parent := none, mask := none, filters := none, effects := none,
                 position := none, scale := none, pivot := none, skew := none })
        _ (fun _ => rfl),
      removeFromParent_destroyed, updC_containers, if_pos rfl]

theorem destroyPre_destroyed_of_ne (w : World) (self j : Nat) (h : j ≠ self) :
    ((destroyPre w self).1.containers j).destroyed = (w.containers j).destroyed := by
  simp only [destroyPre]
  rw [removeAllChildrenOp_destroyed, rootStep_containers,
      updC_keepD _ _ (fun c =>
        { c with parent := none, mask := none, filters := none, effects := none,
                 position := none, scale := none, pivot := none, skew := none })
        _ (fun _ => rfl),
      removeFromParent_destroyed, updC_containers, if_neg h]

theorem destroyPre_parent_self (w : World) (self : Nat) :
    ((destroyPre w self).1.containers self).parent = none := by
  simp only [destroyPre]
  refine ((Dmono_removeAllChildrenOp _ self) self).2.1 ?_
  rw [rootStep_containers, updC_containers, if_pos rfl]

theorem destroyPre_children_self (w : World) (self : Nat) :
    ((destroyPre w self).1.containers self).children = [] := by
  simp only [destroyPre]
  exact removeAllChildrenOp_children_self _ self

theorem destroyPre_removed (w : World) (self : Nat)
    (h : (w.containers self).parent ≠ some self) :
    (destroyPre w self).2.2.1 = (w.containers self).children := by
  have hcond : ((updC w self fun c =>
      { c with destroyed := true }).containers self).parent ≠ some self := by
    rw [updC_containers, if_pos rfl]
    exact h
  simp only [destroyPre]
  rw [removeAllChildrenOp_removed, rootStep_containers,
      updC_keepC _ _ (fun c =>
        { c with parent := none, mask := none, filters := none, effects := none,
                 position := none, scale := none, pivot := none, skew := none })
        _ (fun _ => rfl),
      removeFromParent_children_self _ self hcond,
      updC_containers, if_pos rfl]

theorem removeChild_count (w : World) (p c m : Nat) :
    List.count (Event.destroyedEv m) (removeChild w p c).2 = 0 := by
  simp [removeChild, List.count_cons]

theorem removeFromParent_count (w : World) (self m : Nat) :
    List.count (Event.destroyedEv m) (removeFromParent w self).2 = 0 := by
  simp only [removeFromParent]
  cases (w.containers self).parent with
  | none => rfl
  | some p => exact removeChild_count w p self m

theorem removeAllChildrenOp_count (w : World) (self m : Nat) :
    List.count (Event.destroyedEv m) (removeAllChildrenOp w self).2.2 = 0 := by
  simp only [removeAllChildrenOp]
  rw [List.count_eq_zero]
  simp

theorem destroyPre_count1 (w : World) (self m : Nat) :
    List.count (Event.destroyedEv m) (destroyPre w self).2.1 = 0 := by
  simp only [destroyPre]
  exact removeFromParent_count _ self m

theorem destroyPre_count2 (w : World) (self m : Nat) :
    List.count (Event.destroyedEv m) (destroyPre w self).2.2.2 = 0 := by
  simp only [destroyPre]
  exact removeAllChildrenOp_count _ self m

theorem destroy_zero (w : World) (self : Nat) (d : Bool) :
    destroy 0 w self d = (w, []) := by
  simp only [destroy]

theorem destroy_of_destroyed (fuel : Nat) (w : World) (self : Nat) (d : Bool)
    (h : (w.containers self).destroyed = true) :
    destroy fuel w self d = (w, []) := by
  cases fuel with
  | zero => exact destroy_zero w self d
  | succ f =>
    simp only [destroy]
    rw [if_pos h]

theorem destroy_sets (fuel : Nat) (w : World) (self : Nat) (d : Bool) :
    ((destroy (fuel + 1) w self d).1.containers self).destroyed = true := by
  by_cases h : (w.containers self).destroyed = true
  · rw [destroy_of_destroyed _ _ _ _ h]
    exact h
  · simp only [destroy]
    rw [if_neg h]
    have hp : ((destroyPre w self).1.containers self).destroyed = true :=
      destroyPre_destroyed_self w self
    cases d with
    | false =>
      rw [if_neg Bool.false_ne_true]
      exact hp
    | true =>
      rw [if_pos rfl]
      exact (((destroy_mono fuel).2 (destroyPre w self).1 _ true) self).1 hp

theorem destroyList_sets (fuel : Nat) (d : Bool) :
    ∀ (l : List Nat) (w : World) (c : Nat), c ∈ l →
      ((destroyList (fuel + 1) w l d).1.containers c).destroyed = true := by
  intro l
  induction l with
  | nil =>
    intro w c hc
    cases hc
  | cons x xs ih =>
    intro w c hc
    simp only [destroyList]
    rcases List.mem_cons.mp hc with rfl | hxs
    · exact (((destroy_mono (fuel + 1)).2 _ xs d) c).1 (destroy_sets fuel w c d)
    · exact ih _ c hxs

/-- The destroy pipeline leaves a node clean: any node whose `destroyed`
flag flips from false to true ends with a null parent pointer and an empty
children list. -/
def DClean (w w2 : World) : Prop :=
  ∀ j, (w2.containers j).destroyed = true → (w.containers j).destroyed = false →
    (w2.containers j).parent = none ∧ (w2.containers j).children = []

theorem DClean_refl (w : World) : DClean w w := by
  intro j h1 h2
  rw [h1] at h2
  exact Bool.noConfusion h2

theorem DClean_comp {w1 w2 w3 : World} (hc1 : DClean w1 w2) (hc2 : DClean w2 w3)
    (hm : Dmono w2 w3) : DClean w1 w3 := by
  intro j h3 h1
  cases hd2 : (w2.containers j).destroyed with
  | true =>
    obtain ⟨hp, hc⟩ := hc1 j hd2 h1
    exact ⟨(hm j).2.1 hp, (hm j).2.2 hc⟩
  | false => exact hc2 j h3 hd2

theorem DClean_destroyPre (w : World) (self : Nat) : DClean w (destroyPre w self).1 := by
  intro j h1 h2
  rcases eq_or_ne j self with rfl | hne
  · exact ⟨destroyPre_parent_self w j, destroyPre_children_self w j⟩
  · rw [destroyPre_destroyed_of_ne w self j hne] at h1
    rw [h1] at h2
    exact Bool.noConfusion h2

theorem destroy_clean : ∀ (fuel : Nat),
    (∀ w self d, DClean w (destroy fuel w self d).1) ∧
    (∀ w l d, DClean w (destroyList fuel w l d).1) := by
  intro fuel
  induction fuel with
  | zero =>
    have hd : ∀ (w : World) (self : Nat) (d : Bool), DClean w (destroy 0 w self d).1 := by
      intro w self d
      simp only [destroy]
      exact DClean_refl w
    refine ⟨hd, ?_⟩
    intro w l d
    induction l generalizing w with
    | nil => simp only [destroyList]; exact DClean_refl w
    | cons x xs ihl =>
      simp only [destroyList]
      exact DClean_comp (hd w x d) (ihl _) ((destroy_mono 0).2 _ _ _)
  | succ fuel ih =>
    have hd : ∀ (w : World) (self : Nat) (d : Bool),
        DClean w (destroy (fuel + 1) w self d).1 := by
      intro w self d
      simp only [destroy]
      split
      · exact DClean_refl w
      · cases d with
        | false =>
          rw [if_neg Bool.false_ne_true]
          exact DClean_destroyPre w self
        | true =>
          rw [if_pos rfl]
          exact DClean_comp (DClean_destroyPre w self) (ih.2 _ _ _)
            ((destroy_mono fuel).2 _ _ _)
    refine ⟨hd, ?_⟩
    intro w l d
    induction l generalizing w with
    | nil => simp only [destroyList]; exact DClean_refl w
    | cons x xs ihl =>
      simp only [destroyList]
      exact DClean_comp (hd w x d) (ihl _) ((destroy_mono (fuel + 1)).2 _ _ _)

theorem not_flip {b : Bool} : ¬(b = true ∧ b = false) := by
  rintro ⟨h1, h2⟩
  rw [h1] at h2
  exact Bool.noConfusion h2

theorem count_nil_noflip (m : Nat) (b : Bool) :
    List.count (Event.destroyedEv m) ([] : List Event) =
      if b = true ∧ b = false then 1 else 0 := by
  rw [if_neg not_flip]
  rfl

theorem count_destroyedEv_singleton (s m : Nat) :
    List.count (Event.destroyedEv m) [Event.destroyedEv s] = if s = m then 1 else 0 := by
  rcases eq_or_ne s m with rfl | h
  · simp
  · simp [List.count_cons, h]

theorem count_ite_arith (b0 b1 b2 : Bool) (h01 : b0 = true → b1 = true)
    (h12 : b1 = true → b2 = true) :
    ((if b1 = true ∧ b0 = false then 1 else 0) +
      (if b2 = true ∧ b1 = false then 1 else 0) : Nat) =
      if b2 = true ∧ b0 = false then 1 else 0 := by
  cases b0 <;> cases b1 <;> cases b2 <;> simp_all

theorem destroy_count : ∀ (fuel : Nat),
    (∀ w self d m, List.count (Event.destroyedEv m) (destroy fuel w self d).2 =
      if ((destroy fuel w self d).1.containers m).destroyed = true ∧
         (w.containers m).destroyed = false then 1 else 0) ∧
    (∀ w l d m, List.count (Event.destroyedEv m) (destroyList fuel w l d).2 =
      if ((destroyList fuel w l d).1.containers m).destroyed = true ∧
         (w.containers m).destroyed = false then 1 else 0) := by
  intro fuel
  induction fuel with
  | zero =>
    have hd : ∀ (w : World) (self : Nat) (d : Bool) (m : Nat),
        List.count (Event.destroyedEv m) (destroy 0 w self d).2 =
          if ((destroy 0 w self d).1.containers m).destroyed = true ∧
             (w.containers m).destroyed = false then 1 else 0 := by
      intro w self d m
      simp only [destroy]
      exact count_nil_noflip m _
    refine ⟨hd, ?_⟩
    intro w l d m
    induction l generalizing w with
    | nil =>
      simp only [destroyList]
      exact count_nil_noflip m _
    | cons x xs ihl =>
      simp only [destroyList, destroy_zero, List.count_append, List.count_nil,
        Nat.zero_add]
      exact ihl w
  | succ fuel ih =>
    have hd : ∀ (w : World) (self : Nat) (d : Bool) (m : Nat),
        List.count (Event.destroyedEv m) (destroy (fuel + 1) w self d).2 =
          if ((destroy (fuel + 1) w self d).1.containers m).destroyed = true ∧
             (w.containers m).destroyed = false then 1 else 0 := by
      intro w self d m
      simp only [destroy]
      split
      · exact count_nil_noflip m _
      next hdes =>
        have hdes' : (w.containers self).destroyed = false := by
          revert hdes
          cases (w.containers self).destroyed <;> simp
        cases d with
        | false =>
          rw [if_neg Bool.false_ne_true]
          simp only [List.count_append, destroyPre_count1, destroyPre_count2,
            count_destroyedEv_singleton, List.count_nil, Nat.zero_add, Nat.add_zero]
          rcases eq_or_ne self m with rfl | hne
          · rw [if_pos rfl, if_pos ⟨destroyPre_destroyed_self w self, hdes'⟩]
          · have hcond : ¬(((destroyPre w self).1.containers m).destroyed = true ∧
                (w.containers m).destroyed = false) := by
              rw [destroyPre_destroyed_of_ne w self m (Ne.symm hne)]
              exact not_flip
            rw [if_neg hne, if_neg hcond]
        | true =>
          rw [if_pos rfl]
          simp only [List.count_append, destroyPre_count1, destroyPre_count2,
            count_destroyedEv_singleton, Nat.zero_add, Nat.add_zero]
          rw [ih.2 (destroyPre w self).1 (destroyPre w self).2.2.1 true m]
          rcases eq_or_ne self m with rfl | hne
          · have hps : ((destroyPre w self).1.containers self).destroyed = true :=
              destroyPre_destroyed_self w self
            have hz : ¬(((destroyList fuel (destroyPre w self).1
                  (destroyPre w self).2.2.1 true).1.containers self).destroyed = true ∧
                ((destroyPre w self).1.containers self).destroyed = false) := by
              rw [hps]
              rintro ⟨_, h2⟩
              exact Bool.noConfusion h2
            have hafter : ((destroyList fuel (destroyPre w self).1
                (destroyPre w self).2.2.1 true).1.containers self).destroyed = true :=
              ((destroy_mono fuel).2 _ _ _ self).1 hps
            rw [if_neg hz, if_pos rfl, if_pos ⟨hafter, hdes'⟩]
          · have heq : ((destroyPre w self).1.containers m).destroyed =
                (w.containers m).destroyed := destroyPre_destroyed_of_ne w self m (Ne.symm hne)
            rw [if_neg hne, heq]
            simp
    refine ⟨hd, ?_⟩
    intro w l d m
    induction l generalizing w with
    | nil =>
      simp only [destroyList]
      exact count_nil_noflip m _
    | cons x xs ihl =>
      simp only [destroyList, List.count_append]
      rw [hd w x d m, ihl ((destroy (fuel + 1) w x d).1)]
      exact count_ite_arith _ _ _
        (fun h => ((destroy_mono (fuel + 1)).1 w x d m).1 h)
        (fun h => ((destroy_mono (fuel + 1)).2 (destroy (fuel + 1) w x d).1 xs d m).1 h)

/-- C8: `destroy` is idempotent — once a node's `destroyed` flag is set, a
second `destroy` call (with any fuel and any children option) returns the
world unchanged and emits nothing — and destroying a not-yet-destroyed
node `P` (whose parent link is not a self-loop and whose children are not
yet destroyed) with the children option set destroys every former child
exactly once: afterwards each former child has its `destroyed` flag set, a
null parent pointer, an empty children list, and exactly one `destroyed`
event emitted for it during the whole call. -/
theorem claim_c8_destroy (fuel : Nat) (w : World) (P : Nat)
    (hPd : (w.containers P).destroyed = false)
    (hploop : (w.containers P).parent ≠ some P)
    (hch : ∀ c ∈ (w.containers P).children, (w.containers c).destroyed = false) :
    (∀ fuel2 d2, destroy fuel2 (destroy (fuel + 1 + 1) w P true).1 P d2 =
        ((destroy (fuel + 1 + 1) w P true).1, [])) ∧
    (∀ c ∈ (w.containers P).children,
      ((destroy (fuel + 1 + 1) w P true).1.containers c).destroyed = true ∧
      ((destroy (fuel + 1 + 1) w P true).1.containers c).parent = none ∧
      ((destroy (fuel + 1 + 1) w P true).1.containers c).children = [] ∧
      List.count (Event.destroyedEv c) (destroy (fuel + 1 + 1) w P true).2 = 1) := by
  have hPset : ((destroy (fuel + 1 + 1) w P true).1.containers P).destroyed = true :=
    destroy_sets (fuel + 1) w P true
  constructor
  · intro fuel2 d2
    exact destroy_of_destroyed fuel2 _ P d2 hPset
  · intro c hc
    have hg : ¬((w.containers P).destroyed = true) := by
      rw [hPd]
      exact Bool.noConfusion
    have hset : ((destroy (fuel + 1 + 1) w P true).1.containers c).destroyed = true := by
      simp only [destroy]
      rw [if_neg hg, if_pos trivial, destroyPre_removed w P hploop]
      exact destroyList_sets fuel true (w.containers P).children (destroyPre w P).1 c hc
    have hclean := (destroy_clean (fuel + 1 + 1)).1 w P true c hset (hch c hc)
    refine ⟨hset, hclean.1, hclean.2, ?_⟩
    rw [(destroy_count (fuel + 1 + 1)).1 w P true c]
    rw [if_pos ⟨hset, hch c hc⟩]

/-- Concrete world for the C8 witness: node 0 has the single child 1; both
are alive. -/
def wC8w : World :=
  { containers := fun j =>
      if j = 0 then { Container.mkDefault with children := [1] }
      else if j = 1 then { Container.mkDefault with parent := some 0 }
      else Container.mkDefault
    groups := fun _ => RenderGroup.mkNew 0
    nextGroupId := 0 }

/-- C8 witness: the theorem applied at the concrete world — after
`destroy` of node 0 with the children option, a repeated `destroy` of node
0 is a no-op, and the former child 1 is destroyed exactly once, orphaned
and childless. -/
theorem claim_c8_destroy_witness :
    ((wC8w.containers 0).destroyed = false ∧
     (wC8w.containers 0).parent ≠ some 0 ∧
     (∀ c ∈ (wC8w.containers 0).children, (wC8w.containers c).destroyed = false)) ∧
    (∀ fuel2 d2, destroy fuel2 (destroy (0 + 1 + 1) wC8w 0 true).1 0 d2 =
        ((destroy (0 + 1 + 1) wC8w 0 true).1, [])) ∧
    (∀ c ∈ (wC8w.containers 0).children,
      ((destroy (0 + 1 + 1) wC8w 0 true).1.containers c).destroyed = true ∧
      ((destroy (0 + 1 + 1) wC8w 0 true).1.containers c).parent = none ∧
      ((destroy (0 + 1 + 1) wC8w 0 true).1.containers c).children = [] ∧
      List.count (Event.destroyedEv c) (destroy (0 + 1 + 1) wC8w 0 true).2 = 1) := by
  have h1 : (wC8w.containers 0).destroyed = false := by decide
  have h2 : (wC8w.containers 0).parent ≠ some 0 := by decide
  have h3 : ∀ c ∈ (wC8w.containers 0).children, (wC8w.containers c).destroyed = false := by
    decide
  exact ⟨⟨h1, h2, h3⟩, claim_c8_destroy 0 wC8w 0 h1 h2 h3⟩

end Pixi
